import Mathlib

/-!
Verification development for the DualCache repository (src/src/lib.rs).

The Rust source is shallowly embedded: `u64` values are natural numbers
with explicit saturation at `U64MAX`, `Vec<Node<K,V>>` is `List (Node K V)`,
`HashMap<K, usize>` is an association list `List (K × Nat)` with
replace-on-insert semantics, and the system clock (`current_time`) is an
explicit `now` parameter to the operations that read it.
-/

/-- U64MAX is the largest value of the Rust type `u64`, that is `2^64 - 1`. -/
def U64MAX : Nat := 18446744073709551615

/-- satAdd models `u64::saturating_add` on values below `U64MAX`. -/
def satAdd (a b : Nat) : Nat := min (a + b) U64MAX

/-- Node models the Rust struct `Node<K, V>` of src/src/lib.rs: an entry with
a key, a value, an access counter and an absolute expiry instant. -/
structure Node (K V : Type) where
  key : K
  value : V
  counter : Nat
  time_stamp : Nat
deriving DecidableEq, Repr

/-- idxLookup models `HashMap::get` on the association-list model of the index. -/
def idxLookup {K : Type} [DecidableEq K] : List (K × Nat) → K → Option Nat
  | [], _ => none
  | (k0, v0) :: t, k => if k0 = k then some v0 else idxLookup t k

/-- idxInsert models `HashMap::insert`: it replaces the value of an existing
key and otherwise appends the binding. -/
def idxInsert {K : Type} [DecidableEq K] : List (K × Nat) → K → Nat → List (K × Nat)
  | [], k, v => [(k, v)]
  | (k0, v0) :: t, k, v => if k0 = k then (k, v) :: t else (k0, v0) :: idxInsert t k v

/-- idxRemove models `HashMap::remove` (the removed value is not used by the code). -/
def idxRemove {K : Type} [DecidableEq K] : List (K × Nat) → K → List (K × Nat)
  | [], _ => []
  | (k0, v0) :: t, k => if k0 = k then idxRemove t k else (k0, v0) :: idxRemove t k

/-- Cache models the Rust struct `Cache<K, V>`: the single-writer ranked arena
with its key-to-position index, the running counter sum, the membrane position
`evict_point` and the configured capacity. -/
structure Cache (K V : Type) where
  arena : List (Node K V)
  index : List (K × Nat)
  counter_sum : Nat
  evict_point : Nat
  capacity : Nat
deriving DecidableEq, Repr

/-- sumCounters is the mathematical sum `Σ arena[i].counter` that the field
`counter_sum` is documented to track. -/
def sumCounters {K V : Type} (l : List (Node K V)) : Nat :=
  (l.map Node.counter).sum

namespace Cache

variable {K V : Type} [DecidableEq K]

/-- swap_nodes models `Cache::swap_nodes`: exchange `arena[idx_a]` and
`arena[idx_b]` and re-insert both keys into the index at their new positions;
no-op when the positions coincide or either is out of bounds. -/
def swap_nodes (c : Cache K V) (idx_a idx_b : Nat) : Cache K V :=
  if idx_a = idx_b ∨ c.arena.length ≤ idx_a ∨ c.arena.length ≤ idx_b then c
  else
    match c.arena[idx_a]?, c.arena[idx_b]? with
    | some a, some b =>
      { c with
        arena := (c.arena.set idx_a b).set idx_b a,
        index := idxInsert (idxInsert c.index b.key idx_a) a.key idx_b }
    | _, _ => c

/-- viscous_climb models `Cache::viscous_climb` with the call to
`current_time` replaced by the parameter `now`: validate the index entry,
increment the counter and the counter sum (both saturating), then either
demote an expired node (swap toward `evict_point + 1` and drop the key from
the index) or promote the node one position toward the front. -/
def viscous_climb (c : Cache K V) (k : K) (now : Nat) : Cache K V :=
  match idxLookup c.index k with
  | none => c
  | some i =>
    match c.arena[i]? with
    | none => c
    | some nd =>
      if nd.key = k then
        let nd1 : Node K V := { nd with counter := satAdd nd.counter 1 }
        let c1 : Cache K V :=
          { c with arena := c.arena.set i nd1, counter_sum := satAdd c.counter_sum 1 }
        if now > nd1.time_stamp then
          let target := c.evict_point + 1
          let c2 := if target < c1.arena.length then c1.swap_nodes i target else c1
          { c2 with index := idxRemove c2.index k }
        else
          if 0 < i then c1.swap_nodes i (i - 1) else c1
      else c

/-- update_value models `Cache::update_value`: replace the value in place when
the index entry is valid, otherwise do nothing. -/
def update_value (c : Cache K V) (k : K) (v : V) : Cache K V :=
  match idxLookup c.index k with
  | none => c
  | some i =>
    match c.arena[i]? with
    | none => c
    | some nd =>
      if nd.key = k then
        { c with arena := c.arena.set i { nd with value := v } }
      else c

/-- cliffTruncate models the eviction trigger at the top of
`Cache::gatsby_insert`: when the arena is full, truncate it to
`evict_point` (the code guards the call with `evict_point < arena.len()`;
index entries of discarded nodes are not purged). -/
def cliffTruncate (c : Cache K V) : Cache K V :=
  if c.arena.length = c.capacity then
    if c.evict_point < c.arena.length then
      { c with arena := c.arena.take c.evict_point }
    else c
  else c

/-- gatsby_insert models `Cache::gatsby_insert` with `current_time` replaced
by `now`: run the eviction trigger, delegate to `update_value` when the key is
already in the index, otherwise push a fresh node with counter 1 and expiry
`now + ttl`, record it in the index, bump the counter sum, and swap the
newcomer with position `evict_point + 1` when that position exists. -/
def gatsby_insert (c : Cache K V) (k : K) (v : V) (ttl now : Nat) : Cache K V :=
  let c0 := c.cliffTruncate
  if (idxLookup c0.index k).isSome then c0.update_value k v
  else
    let nd : Node K V := { key := k, value := v, counter := 1, time_stamp := now + ttl }
    let c1 : Cache K V := { c0 with arena := c0.arena ++ [nd] }
    let new_idx := c1.arena.length - 1
    let c2 : Cache K V :=
      { c1 with index := idxInsert c1.index k new_idx,
                counter_sum := satAdd c1.counter_sum 1 }
    let target := c0.evict_point + 1
    if target < c2.arena.length then c2.swap_nodes new_idx target else c2

/-- double_swap_delete models `Cache::double_swap_delete`: validate the index
entry; when `evict_point + 1` is out of range fall back to `Vec::swap_remove`
plus an index fix, otherwise swap the victim to `evict_point + 1`, then to the
last position, pop it and remove its key from the index. -/
def double_swap_delete (c : Cache K V) (k : K) : Cache K V :=
  match idxLookup c.index k with
  | none => c
  | some i =>
    match c.arena[i]? with
    | none => c
    | some nd =>
      if nd.key = k then
        let target1 := c.evict_point + 1
        if c.arena.length ≤ target1 then
          match c.arena[c.arena.length - 1]? with
          | none => c
          | some lastnd =>
            let arena1 := (c.arena.set i lastnd).dropLast
            let index1 :=
              if i < arena1.length then
                match arena1[i]? with
                | some moved => idxInsert c.index moved.key i
                | none => c.index
              else c.index
            { c with arena := arena1, index := idxRemove index1 k }
        else
          let c1 := c.swap_nodes i target1
          let c2 := c1.swap_nodes target1 (c1.arena.length - 1)
          match c2.arena[c2.arena.length - 1]? with
          | none => c2
          | some popped =>
            { c2 with arena := c2.arena.dropLast, index := idxRemove c2.index popped.key }
      else c

/-- update_evict_point models `Cache::update_evict_point`: on a non-empty
arena, first grow `evict_point` by `step` (capped at `capacity`) whenever it
is below `capacity`; then, if the grown value indexes a node whose counter is
at most the average, shrink it by `step` (saturating at 0); finally cap the
result at `capacity`. -/
def update_evict_point (c : Cache K V) : Cache K V :=
  if c.arena.length = 0 then c
  else
    let avg := c.counter_sum / max c.arena.length 1
    let step := max (c.capacity / 10) 1
    let e1 := if c.evict_point < c.capacity then min (c.evict_point + step) c.capacity
              else c.evict_point
    let e2 :=
      match c.arena[e1]? with
      | some nd => if nd.counter > avg then e1 else e1 - step
      | none => e1
    let e3 := if e2 > c.capacity then c.capacity else e2
    { c with evict_point := e3 }

/-- time_decay. Modelled from the spec: the operation `time_decay` /
`decay()` is specified (spec section 4.1 "time_decay" and section 6 `decay()`)
but absent from src/src/lib.rs; per the spec it halves every node's counter
(integer shift) and recomputes `counter_sum` from scratch, touching neither
positions nor index. -/
def time_decay (c : Cache K V) : Cache K V :=
  let arena1 := c.arena.map (fun nd => { nd with counter := nd.counter / 2 })
  { c with arena := arena1, counter_sum := sumCounters arena1 }

end Cache

/-- DualCache models the Rust struct `DualCache<K, V>`: the writer-side state
`main`, the atomically published snapshot `mirror`, and the bounded signal
queue (the crossbeam channel of capacity 10000, modelled by its buffered
contents). -/
structure DualCache (K V : Type) where
  main : Cache K V
  mirror : Cache K V
  queue : List K
deriving DecidableEq, Repr

/-- queueBound is the bound of the crossbeam channel created in `new`. -/
def queueBound : Nat := 10000

namespace DualCache

variable {K V : Type} [DecidableEq K]

/-- new models `DualCache::new`: an empty arena and index, zero counter sum,
`evict_point` initialised to `capacity`, the mirror a clone of the initial
cache, and an empty signal queue. -/
def new (capacity : Nat) : DualCache K V :=
  let initial : Cache K V :=
    { arena := [], index := [], counter_sum := 0, evict_point := capacity,
      capacity := capacity }
  { main := initial, mirror := initial, queue := [] }

/-- get models `DualCache::get`: look the key up in the mirror snapshot,
lazily validate the entry, on a valid hit try-send the key to the (lossy)
signal queue and return the stored value; the time stamp is never read. -/
def get (s : DualCache K V) (k : K) : Option V × DualCache K V :=
  match idxLookup s.mirror.index k with
  | none => (none, s)
  | some i =>
    match s.mirror.arena[i]? with
    | none => (none, s)
    | some nd =>
      if nd.key = k then
        (some nd.value,
         { s with queue := if s.queue.length < queueBound then s.queue ++ [k] else s.queue })
      else (none, s)

/-- process_read_signal models `DualCache::process_read_signal`. -/
def process_read_signal (s : DualCache K V) (k : K) (now : Nat) : DualCache K V :=
  { s with main := s.main.viscous_climb k now }

/-- insert models `DualCache::insert`. -/
def insert (s : DualCache K V) (k : K) (v : V) (ttl now : Nat) : DualCache K V :=
  { s with main := s.main.gatsby_insert k v ttl now }

/-- delete models `DualCache::delete`. -/
def delete (s : DualCache K V) (k : K) : DualCache K V :=
  { s with main := s.main.double_swap_delete k }

/-- maintenance models `DualCache::maintenance`. -/
def maintenance (s : DualCache K V) : DualCache K V :=
  { s with main := s.main.update_evict_point }

/-- update models `DualCache::update`. -/
def update (s : DualCache K V) (k : K) (v : V) : DualCache K V :=
  { s with main := s.main.update_value k v }

/-- commit models `DualCache::commit` / `sync_mirror`: publish a deep clone of
`main` as the new mirror. -/
def commit (s : DualCache K V) : DualCache K V :=
  { s with mirror := s.main }

end DualCache

/-- Op enumerates the public operations of the cache handle, each carrying the
instant `now` at which the implementation would have sampled the clock. -/
inductive Op (K V : Type) where
  | insert (k : K) (v : V) (ttl now : Nat)
  | delete (k : K)
  | update (k : K) (v : V)
  | signal (k : K) (now : Nat)
  | maintain
  | commit
  | read (k : K)

/-- execOp runs one public operation on a DualCache state. -/
def execOp {K V : Type} [DecidableEq K] (s : DualCache K V) : Op K V → DualCache K V
  | .insert k v ttl now => s.insert k v ttl now
  | .delete k => s.delete k
  | .update k v => s.update k v
  | .signal k now => s.process_read_signal k now
  | .maintain => s.maintenance
  | .commit => s.commit
  | .read k => (s.get k).2

/-- execTrace runs a sequence of public operations from a starting state. -/
def execTrace {K V : Type} [DecidableEq K] (s : DualCache K V) : List (Op K V) → DualCache K V
  | [] => s
  | op :: rest => execTrace (execOp s op) rest

/-- consistentAI states the index/arena mutual-consistency invariant of the
spec for a given arena and index: every index entry points at a slot holding
its key, and every slot's key is indexed at that slot. -/
def consistentAI {K V : Type} [DecidableEq K]
    (a : List (Node K V)) (m : List (K × Nat)) : Prop :=
  (∀ k i, idxLookup m k = some i → ∃ nd, a[i]? = some nd ∧ nd.key = k) ∧
  (∀ i nd, a[i]? = some nd → idxLookup m nd.key = some i)

/-- consistent states the invariant for a cache state. -/
def consistent {K V : Type} [DecidableEq K] (c : Cache K V) : Prop :=
  consistentAI c.arena c.index

/-- cleanOp marks an operation as tombstone-free at the given state: a signal
must not hit an expired node (which would leave an unindexed arena node), and
an insert must not run a discarding truncation (which would leave stale index
entries). -/
def cleanOp {K V : Type} [DecidableEq K] (s : DualCache K V) : Op K V → Bool
  | .signal k now =>
    match idxLookup s.main.index k with
    | some i =>
      match s.main.arena[i]? with
      | some nd => if nd.key = k then decide (now ≤ nd.time_stamp) else true
      | none => true
    | none => true
  | .insert _ _ _ _ =>
    decide (s.main.arena.length = s.main.capacity → s.main.arena.length ≤ s.main.evict_point)
  | _ => true

/-- cleanTrace holds when every operation of the trace is tombstone-free at
the state where it runs. -/
def cleanTrace {K V : Type} [DecidableEq K] : DualCache K V → List (Op K V) → Bool
  | _, [] => true
  | s, op :: rest => cleanOp s op && cleanTrace (execOp s op) rest

/-- noDriftOp marks the operations that keep `counter_sum` in sync with the
arena: everything except `delete`, which forgets the victim's counter. On
delete-free traces from `new` the discarding truncation is unreachable
(whenever `evict_point` drops below `capacity` the arena already exceeds
`capacity`, and its length never shrinks back to `capacity`), so even
`maintenance` is harmless. -/
def noDriftOp {K V : Type} : Op K V → Bool
  | .delete _ => false
  | _ => true

/-- grownEvictPoint is the intermediate membrane position reached by the
unconditional expansion branch at the start of `update_evict_point`: when
`evict_point < capacity` it is `evict_point` plus `step`, capped at
`capacity`; otherwise `evict_point` itself. -/
def grownEvictPoint {K V : Type} (c : Cache K V) : Nat :=
  if c.evict_point < c.capacity
  then min (c.evict_point + max (c.capacity / 10) 1) c.capacity
  else c.evict_point

/-! ## Basic lemmas about the association-list index -/

theorem idxLookup_idxInsert_self {K : Type} [DecidableEq K]
    (m : List (K × Nat)) (k : K) (v : Nat) :
    idxLookup (idxInsert m k v) k = some v := by
  induction m with
  | nil => simp [idxInsert, idxLookup]
  | cons p t ih =>
    obtain ⟨k0, v0⟩ := p
    by_cases h : k0 = k <;> simp [idxInsert, idxLookup, h, ih]

theorem idxLookup_idxInsert_ne {K : Type} [DecidableEq K]
    (m : List (K × Nat)) {k k' : K} (v : Nat) (h : k' ≠ k) :
    idxLookup (idxInsert m k v) k' = idxLookup m k' := by
  induction m with
  | nil => simp [idxInsert, idxLookup, Ne.symm h]
  | cons p t ih =>
    obtain ⟨k0, v0⟩ := p
    by_cases h0 : k0 = k
    · subst h0
      simp [idxInsert, idxLookup, Ne.symm h]
    · simp [idxInsert, idxLookup, h0, ih]

theorem idxLookup_idxRemove_self {K : Type} [DecidableEq K]
    (m : List (K × Nat)) (k : K) :
    idxLookup (idxRemove m k) k = none := by
  induction m with
  | nil => simp [idxRemove, idxLookup]
  | cons p t ih =>
    obtain ⟨k0, v0⟩ := p
    by_cases h : k0 = k <;> simp [idxRemove, idxLookup, h, ih]

theorem idxLookup_idxRemove_ne {K : Type} [DecidableEq K]
    (m : List (K × Nat)) {k k' : K} (h : k' ≠ k) :
    idxLookup (idxRemove m k) k' = idxLookup m k' := by
  induction m with
  | nil => simp [idxRemove, idxLookup]
  | cons p t ih =>
    obtain ⟨k0, v0⟩ := p
    by_cases h0 : k0 = k
    · subst h0
      simp [idxRemove, idxLookup, Ne.symm h, ih]
    · simp [idxRemove, idxLookup, h0, ih]

/-! ## Lemmas about swap_nodes -/

theorem swap_nodes_id {K V : Type} [DecidableEq K] (c : Cache K V) {i j : Nat}
    (h : i = j ∨ c.arena.length ≤ i ∨ c.arena.length ≤ j) :
    c.swap_nodes i j = c := by
  unfold Cache.swap_nodes
  rw [if_pos h]

theorem swap_nodes_eq {K V : Type} [DecidableEq K] (c : Cache K V) {i j : Nat}
    {a b : Node K V} (hij : i ≠ j)
    (ha : c.arena[i]? = some a) (hb : c.arena[j]? = some b) :
    c.swap_nodes i j =
      { c with arena := (c.arena.set i b).set j a,
               index := idxInsert (idxInsert c.index b.key i) a.key j } := by
  have hi : i < c.arena.length := (List.getElem?_eq_some_iff.mp ha).1
  have hj : j < c.arena.length := (List.getElem?_eq_some_iff.mp hb).1
  unfold Cache.swap_nodes
  rw [if_neg (by push_neg; exact ⟨hij, by omega, by omega⟩)]
  rw [ha, hb]

/-! ## Lemmas about sumCounters -/

theorem sumCounters_append {K V : Type} (l : List (Node K V)) (nd : Node K V) :
    sumCounters (l ++ [nd]) = sumCounters l + nd.counter := by
  simp [sumCounters]

theorem sumCounters_set {K V : Type} (l : List (Node K V)) (i : Nat)
    {nd : Node K V} (nd1 : Node K V) (h : l[i]? = some nd) :
    sumCounters (l.set i nd1) + nd.counter = sumCounters l + nd1.counter := by
  induction l generalizing i with
  | nil => simp at h
  | cons hd t ih =>
    cases i with
    | zero =>
      simp at h
      subst h
      simp [sumCounters]
      omega
    | succ n =>
      simp at h
      have := ih n h
      simp [sumCounters] at this ⊢
      omega

theorem counter_le_sumCounters {K V : Type} {l : List (Node K V)} {nd : Node K V}
    (h : nd ∈ l) : nd.counter ≤ sumCounters l := by
  exact List.single_le_sum (fun x _ => Nat.zero_le x) _ (List.mem_map_of_mem Node.counter h)

theorem sumCounters_swap {K V : Type} (l : List (Node K V)) {i j : Nat}
    {a b : Node K V} (ha : l[i]? = some a) (hb : l[j]? = some b) (hij : i ≠ j) :
    sumCounters ((l.set i b).set j a) = sumCounters l := by
  have h1 := sumCounters_set l i b ha
  have hbj : (l.set i b)[j]? = some b := by
    rw [List.getElem?_set_ne hij]
    exact hb
  have h2 := sumCounters_set (l.set i b) j a hbj
  omega

/-! ## Small list helpers -/

theorem getElem?_set_self_of_some {α : Type} {l : List α} {i : Nat} {x y : α}
    (h : l[i]? = some x) : (l.set i y)[i]? = some y := by
  rw [List.getElem?_set_self', h]
  rfl

theorem listSet_self {α : Type} {l : List α} {i : Nat} {x : α}
    (h : l[i]? = some x) : l.set i x = l := by
  apply List.ext_getElem?
  intro n
  by_cases hn : n = i
  · subst hn
    rw [getElem?_set_self_of_some h, h]
  · rw [List.getElem?_set_ne (fun he => hn he.symm)]

theorem idxRemove_idxInsert_self {K : Type} [DecidableEq K]
    (m : List (K × Nat)) (k : K) (v : Nat) :
    idxRemove (idxInsert m k v) k = idxRemove m k := by
  induction m with
  | nil => simp [idxInsert, idxRemove]
  | cons p t ih =>
    obtain ⟨k0, v0⟩ := p
    by_cases h : k0 = k <;> simp [idxInsert, idxRemove, h, ih]

theorem swap_nodes_arena_length {K V : Type} [DecidableEq K] (c : Cache K V) (i j : Nat) :
    (c.swap_nodes i j).arena.length = c.arena.length := by
  unfold Cache.swap_nodes
  split
  · rfl
  · split <;> simp [List.length_set]

theorem swap_nodes_counter_sum {K V : Type} [DecidableEq K] (c : Cache K V) (i j : Nat) :
    (c.swap_nodes i j).counter_sum = c.counter_sum := by
  unfold Cache.swap_nodes
  split
  · rfl
  · split <;> rfl

theorem swap_nodes_evict_point {K V : Type} [DecidableEq K] (c : Cache K V) (i j : Nat) :
    (c.swap_nodes i j).evict_point = c.evict_point := by
  unfold Cache.swap_nodes
  split
  · rfl
  · split <;> rfl

theorem swap_nodes_capacity {K V : Type} [DecidableEq K] (c : Cache K V) (i j : Nat) :
    (c.swap_nodes i j).capacity = c.capacity := by
  unfold Cache.swap_nodes
  split
  · rfl
  · split <;> rfl

/-! ## Consistency lemmas -/

theorem consistentAI_key_inj {K V : Type} [DecidableEq K]
    {a : List (Node K V)} {m : List (K × Nat)} (h : consistentAI a m)
    {i j : Nat} {nd nd' : Node K V}
    (hi : a[i]? = some nd) (hj : a[j]? = some nd') (hk : nd.key = nd'.key) :
    i = j := by
  have h1 := h.2 i nd hi
  have h2 := h.2 j nd' hj
  rw [hk] at h1
  rw [h1] at h2
  exact Option.some.inj h2

theorem consistentAI_set {K V : Type} [DecidableEq K]
    {a : List (Node K V)} {m : List (K × Nat)} (h : consistentAI a m)
    {i : Nat} {nd nd1 : Node K V} (hi : a[i]? = some nd) (hk : nd1.key = nd.key) :
    consistentAI (a.set i nd1) m := by
  constructor
  · intro k j hl
    obtain ⟨nd', hj, hkey⟩ := h.1 k j hl
    by_cases hji : j = i
    · subst hji
      refine ⟨nd1, getElem?_set_self_of_some hj, ?_⟩
      rw [hj] at hi
      rw [hk, ← Option.some.inj hi, hkey]
    · exact ⟨nd', by rw [List.getElem?_set_ne (fun he => hji he.symm)]; exact hj, hkey⟩
  · intro j nd' hj
    by_cases hji : j = i
    · subst hji
      rw [getElem?_set_self_of_some hi] at hj
      rw [← Option.some.inj hj, hk]
      exact h.2 j nd hi
    · rw [List.getElem?_set_ne (fun he => hji he.symm)] at hj
      exact h.2 j nd' hj

theorem consistentAI_swap {K V : Type} [DecidableEq K]
    {a : List (Node K V)} {m : List (K × Nat)} (h : consistentAI a m)
    {i j : Nat} {x y : Node K V}
    (hx : a[i]? = some x) (hy : a[j]? = some y) (hij : i ≠ j) :
    consistentAI ((a.set i y).set j x) (idxInsert (idxInsert m y.key i) x.key j) := by
  have hxy : x.key ≠ y.key := fun he => hij (consistentAI_key_inj h hx hy he)
  have hgi : ((a.set i y).set j x)[i]? = some y := by
    rw [List.getElem?_set_ne (Ne.symm hij)]
    exact getElem?_set_self_of_some hx
  have hgj : ((a.set i y).set j x)[j]? = some x :=
    getElem?_set_self_of_some (by rw [List.getElem?_set_ne hij]; exact hy)
  have hother : ∀ n, n ≠ i → n ≠ j → ((a.set i y).set j x)[n]? = a[n]? := by
    intro n hni hnj
    rw [List.getElem?_set_ne (fun he => hnj he.symm),
        List.getElem?_set_ne (fun he => hni he.symm)]
  constructor
  · intro k p hl
    by_cases hkx : k = x.key
    · rw [hkx, idxLookup_idxInsert_self] at hl
      exact ⟨x, by rw [← Option.some.inj hl]; exact hgj, hkx.symm⟩
    · by_cases hky : k = y.key
      · rw [idxLookup_idxInsert_ne _ _ hkx, hky, idxLookup_idxInsert_self] at hl
        exact ⟨y, by rw [← Option.some.inj hl]; exact hgi, hky.symm⟩
      · rw [idxLookup_idxInsert_ne _ _ hkx, idxLookup_idxInsert_ne _ _ hky] at hl
        obtain ⟨nd', hp, hkey⟩ := h.1 k p hl
        have hpi : p ≠ i := fun he => hkx (by subst he; rw [hp] at hx; rw [← hkey, Option.some.inj hx])
        have hpj : p ≠ j := fun he => hky (by subst he; rw [hp] at hy; rw [← hkey, Option.some.inj hy])
        exact ⟨nd', by rw [hother p hpi hpj]; exact hp, hkey⟩
  · intro p nd' hp
    by_cases hpi : p = i
    · subst hpi
      rw [hgi] at hp
      rw [← Option.some.inj hp]
      rw [idxLookup_idxInsert_ne _ _ (Ne.symm hxy), idxLookup_idxInsert_self]
    · by_cases hpj : p = j
      · subst hpj
        rw [hgj] at hp
        rw [← Option.some.inj hp]
        rw [idxLookup_idxInsert_self]
      · rw [hother p hpi hpj] at hp
        have hold := h.2 p nd' hp
        have hnx : nd'.key ≠ x.key := fun he => hpi (consistentAI_key_inj h hp hx he)
        have hny : nd'.key ≠ y.key := fun he => hpj (consistentAI_key_inj h hp hy he)
        rw [idxLookup_idxInsert_ne _ _ hnx, idxLookup_idxInsert_ne _ _ hny]
        exact hold

theorem consistentAI_append_insert {K V : Type} [DecidableEq K]
    {a : List (Node K V)} {m : List (K × Nat)} (h : consistentAI a m)
    {k : K} (hnone : idxLookup m k = none) {nd : Node K V} (hk : nd.key = k) :
    consistentAI (a ++ [nd]) (idxInsert m k a.length) := by
  constructor
  · intro k' p hl
    by_cases hk' : k' = k
    · rw [hk', idxLookup_idxInsert_self] at hl
      refine ⟨nd, ?_, by rw [hk, hk']⟩
      rw [← Option.some.inj hl]
      exact List.getElem?_concat_length a nd
    · rw [idxLookup_idxInsert_ne _ _ hk'] at hl
      obtain ⟨nd', hp, hkey⟩ := h.1 k' p hl
      have hplt : p < a.length := (List.getElem?_eq_some_iff.mp hp).1
      exact ⟨nd', by rw [List.getElem?_append_left hplt]; exact hp, hkey⟩
  · intro p nd' hp
    have hplt : p < a.length + 1 := by
      have := (List.getElem?_eq_some_iff.mp hp).1
      simpa using this
    by_cases hpl : p < a.length
    · rw [List.getElem?_append_left hpl] at hp
      have hold := h.2 p nd' hp
      have hne : nd'.key ≠ k := fun he => by rw [he, hnone] at hold; cases hold
      rw [idxLookup_idxInsert_ne _ _ hne]
      exact hold
    · have hpeq : p = a.length := by omega
      subst hpeq
      rw [List.getElem?_concat_length] at hp
      rw [← Option.some.inj hp, hk]
      exact idxLookup_idxInsert_self m k a.length

theorem consistentAI_popRemove {K V : Type} [DecidableEq K]
    {a : List (Node K V)} {m : List (K × Nat)} (h : consistentAI a m)
    {nd : Node K V} (hl : a[a.length - 1]? = some nd) :
    consistentAI a.dropLast (idxRemove m nd.key) := by
  have hlen : 0 < a.length := by
    have := (List.getElem?_eq_some_iff.mp hl).1
    omega
  constructor
  · intro k p hp
    by_cases hk : k = nd.key
    · rw [hk, idxLookup_idxRemove_self] at hp
      cases hp
    · rw [idxLookup_idxRemove_ne _ hk] at hp
      obtain ⟨nd', hp', hkey⟩ := h.1 k p hp
      have hpne : p ≠ a.length - 1 := by
        intro he
        subst he
        rw [hp'] at hl
        exact hk (by rw [← hkey, Option.some.inj hl])
      have hplt : p < a.length := (List.getElem?_eq_some_iff.mp hp').1
      refine ⟨nd', ?_, hkey⟩
      rw [List.getElem?_dropLast, if_pos (by omega)]
      exact hp'
  · intro p nd' hp
    rw [List.getElem?_dropLast] at hp
    by_cases hlt : p < a.length - 1
    · rw [if_pos hlt] at hp
      have hold := h.2 p nd' hp
      have hne : nd'.key ≠ nd.key := fun he => by
        have := consistentAI_key_inj h hp hl he
        omega
      rw [idxLookup_idxRemove_ne _ hne]
      exact hold
    · rw [if_neg hlt] at hp
      cases hp

theorem consistentAI_swapRemove {K V : Type} [DecidableEq K]
    {a : List (Node K V)} {m : List (K × Nat)} (h : consistentAI a m)
    {i : Nat} {nd lastnd : Node K V}
    (hi : a[i]? = some nd) (hlast : a[a.length - 1]? = some lastnd)
    (hilt : i < a.length - 1) :
    consistentAI ((a.set i lastnd).dropLast)
      (idxRemove (idxInsert m lastnd.key i) nd.key) := by
  have hne : i ≠ a.length - 1 := by omega
  have hswap := consistentAI_swap h hi hlast hne
  have hsetlast : ((a.set i lastnd).set (a.length - 1) nd)[((a.set i lastnd).set (a.length - 1) nd).length - 1]? = some nd := by
    simp only [List.length_set]
    exact getElem?_set_self_of_some (by rw [List.getElem?_set_ne hne]; exact hlast)
  have hpop := consistentAI_popRemove hswap hsetlast
  have harena : ((a.set i lastnd).set (a.length - 1) nd).dropLast = (a.set i lastnd).dropLast := by
    apply List.ext_getElem?
    intro n
    rw [List.getElem?_dropLast, List.getElem?_dropLast]
    simp only [List.length_set]
    by_cases hn : n < a.length - 1
    · rw [if_pos hn, if_pos hn, List.getElem?_set_ne (by omega)]
    · rw [if_neg hn, if_neg hn]
  rw [harena, idxRemove_idxInsert_self] at hpop
  exact hpop

/-! ## Consistency preservation per operation -/

theorem consistent_swap_nodes {K V : Type} [DecidableEq K] (c : Cache K V) (i j : Nat)
    (h : consistent c) : consistent (c.swap_nodes i j) := by
  by_cases hguard : i = j ∨ c.arena.length ≤ i ∨ c.arena.length ≤ j
  · rw [swap_nodes_id c hguard]
    exact h
  · push_neg at hguard
    obtain ⟨hij, hi, hj⟩ := hguard
    have hx := List.getElem?_eq_getElem (l := c.arena) (n := i) hi
    have hy := List.getElem?_eq_getElem (l := c.arena) (n := j) hj
    rw [swap_nodes_eq c hij hx hy]
    exact consistentAI_swap h hx hy hij

theorem consistent_update_value {K V : Type} [DecidableEq K] (c : Cache K V) (k : K) (v : V)
    (h : consistent c) : consistent (c.update_value k v) := by
  unfold Cache.update_value
  split
  next => exact h
  next i hl =>
    split
    next => exact h
    next nd hai =>
      split
      next hkey => exact consistentAI_set h hai rfl
      next hkey => exact h

theorem consistent_viscous_climb {K V : Type} [DecidableEq K] (c : Cache K V) (k : K) (now : Nat)
    (h : consistent c)
    (hsafe : ∀ i nd, idxLookup c.index k = some i → c.arena[i]? = some nd →
      nd.key = k → now ≤ nd.time_stamp) :
    consistent (c.viscous_climb k now) := by
  unfold Cache.viscous_climb
  split
  next => exact h
  next i hl =>
    split
    next => exact h
    next nd hai =>
      split
      next hkey =>
        dsimp only
        split
        next hexp =>
          exact absurd hexp (Nat.not_lt.mpr (hsafe i nd hl hai hkey))
        next hexp =>
          have hc1 : consistent ({ c with
              arena := c.arena.set i { nd with counter := satAdd nd.counter 1 },
              counter_sum := satAdd c.counter_sum 1 } : Cache K V) :=
            consistentAI_set h hai rfl
          split
          next hi0 => exact consistent_swap_nodes _ _ _ hc1
          next hi0 => exact hc1
      next hkey => exact h

theorem cliffTruncate_id {K V : Type} [DecidableEq K] (c : Cache K V)
    (hsafe : c.arena.length = c.capacity → c.arena.length ≤ c.evict_point) :
    c.cliffTruncate = c := by
  unfold Cache.cliffTruncate
  by_cases h1 : c.arena.length = c.capacity
  · rw [if_pos h1, if_neg (by have := hsafe h1; omega)]
  · rw [if_neg h1]

theorem gatsby_insert_existing {K V : Type} [DecidableEq K] (c : Cache K V)
    (k : K) (v : V) (ttl now : Nat)
    (hsome : (idxLookup c.cliffTruncate.index k).isSome) :
    c.gatsby_insert k v ttl now = c.cliffTruncate.update_value k v := by
  unfold Cache.gatsby_insert
  rw [if_pos hsome]

theorem gatsby_insert_fresh {K V : Type} [DecidableEq K] (c : Cache K V)
    (k : K) (v : V) (ttl now : Nat)
    (hnone : idxLookup c.cliffTruncate.index k = none) :
    c.gatsby_insert k v ttl now =
      (if c.cliffTruncate.evict_point + 1 < c.cliffTruncate.arena.length + 1
       then (({ c.cliffTruncate with
                arena := c.cliffTruncate.arena ++ [⟨k, v, 1, now + ttl⟩],
                index := idxInsert c.cliffTruncate.index k c.cliffTruncate.arena.length,
                counter_sum := satAdd c.cliffTruncate.counter_sum 1 } : Cache K V).swap_nodes
              c.cliffTruncate.arena.length (c.cliffTruncate.evict_point + 1))
       else { c.cliffTruncate with
              arena := c.cliffTruncate.arena ++ [⟨k, v, 1, now + ttl⟩],
              index := idxInsert c.cliffTruncate.index k c.cliffTruncate.arena.length,
              counter_sum := satAdd c.cliffTruncate.counter_sum 1 }) := by
  unfold Cache.gatsby_insert
  simp only [hnone, Option.isSome_none, Bool.false_eq_true, if_false, List.length_append,
    List.length_cons, List.length_nil, Nat.add_sub_cancel, Nat.zero_add]

theorem consistent_gatsby_insert {K V : Type} [DecidableEq K] (c : Cache K V)
    (k : K) (v : V) (ttl now : Nat) (h : consistent c)
    (hsafe : c.arena.length = c.capacity → c.arena.length ≤ c.evict_point) :
    consistent (c.gatsby_insert k v ttl now) := by
  cases hsome : idxLookup c.cliffTruncate.index k with
  | some i =>
    rw [gatsby_insert_existing c k v ttl now (by rw [hsome]; rfl)]
    rw [cliffTruncate_id c hsafe]
    exact consistent_update_value _ _ _ h
  | none =>
    rw [gatsby_insert_fresh c k v ttl now hsome]
    rw [cliffTruncate_id c hsafe] at hsome ⊢
    have hc2 : consistent ({ c with
        arena := c.arena ++ [(⟨k, v, 1, now + ttl⟩ : Node K V)],
        index := idxInsert c.index k c.arena.length,
        counter_sum := satAdd c.counter_sum 1 } : Cache K V) :=
      consistentAI_append_insert h hsome rfl
    by_cases htarget : c.evict_point + 1 < c.arena.length + 1
    · rw [if_pos htarget]
      exact consistent_swap_nodes _ _ _ hc2
    · rw [if_neg htarget]
      exact hc2

theorem consistent_double_swap_delete {K V : Type} [DecidableEq K] (c : Cache K V) (k : K)
    (h : consistent c) : consistent (c.double_swap_delete k) := by
  unfold Cache.double_swap_delete
  split
  next => exact h
  next i hl =>
    split
    next => exact h
    next nd hai =>
      split
      next hkey =>
        have hilen : i < c.arena.length := (List.getElem?_eq_some_iff.mp hai).1
        dsimp only
        split
        next hfall =>
          split
          next => exact h
          next lastnd hlast =>
            by_cases hi_lt : i < c.arena.length - 1
            · have harena1 : ((c.arena.set i lastnd).dropLast)[i]? = some lastnd := by
                rw [List.getElem?_dropLast]
                simp only [List.length_set]
                rw [if_pos hi_lt]
                exact getElem?_set_self_of_some hai
              simp only [List.length_dropLast, List.length_set, hi_lt, if_true, harena1]
              rw [← hkey]
              exact consistentAI_swapRemove h hai hlast hi_lt
            · simp only [List.length_dropLast, List.length_set]
              rw [if_neg (by omega)]
              have hieq : i = c.arena.length - 1 := by omega
              subst hieq
              rw [hai] at hlast
              have hnd := Option.some.inj hlast
              subst hnd
              rw [listSet_self hai, ← hkey]
              exact consistentAI_popRemove h hai
        next hfall =>
          have hc1 : consistent (c.swap_nodes i (c.evict_point + 1)) :=
            consistent_swap_nodes _ _ _ h
          have hc2 : consistent ((c.swap_nodes i (c.evict_point + 1)).swap_nodes
              (c.evict_point + 1) ((c.swap_nodes i (c.evict_point + 1)).arena.length - 1)) :=
            consistent_swap_nodes _ _ _ hc1
          have hlen2 : ((c.swap_nodes i (c.evict_point + 1)).swap_nodes
              (c.evict_point + 1) ((c.swap_nodes i (c.evict_point + 1)).arena.length - 1)).arena.length = c.arena.length := by
            rw [swap_nodes_arena_length, swap_nodes_arena_length]
          split
          next hpop =>
            rw [List.getElem?_eq_getElem (by omega)] at hpop
            cases hpop
          next popped hpop =>
            exact consistentAI_popRemove hc2 hpop
      next hkey => exact h

theorem consistent_update_evict_point {K V : Type} [DecidableEq K] (c : Cache K V)
    (h : consistent c) : consistent c.update_evict_point := by
  unfold Cache.update_evict_point
  by_cases h0 : c.arena.length = 0
  · rw [if_pos h0]
    exact h
  · rw [if_neg h0]
    exact h

theorem get_snd_main {K V : Type} [DecidableEq K] (s : DualCache K V) (k : K) :
    ((s.get k).2).main = s.main := by
  unfold DualCache.get
  split
  next => rfl
  next i hl =>
    split
    next => rfl
    next nd hai =>
      split
      next hkey => rfl
      next hkey => rfl

theorem consistent_execOp {K V : Type} [DecidableEq K] (s : DualCache K V) (op : Op K V)
    (h : consistent s.main) (hclean : cleanOp s op = true) :
    consistent (execOp s op).main := by
  cases op with
  | insert k v ttl now =>
    exact consistent_gatsby_insert _ _ _ _ _ h (of_decide_eq_true hclean)
  | delete k => exact consistent_double_swap_delete _ _ h
  | update k v => exact consistent_update_value _ _ _ h
  | signal k now =>
    apply consistent_viscous_climb _ _ _ h
    intro i nd hl hai hkey
    simp only [cleanOp, hl, hai, if_pos hkey, decide_eq_true_eq] at hclean
    exact hclean
  | maintain => exact consistent_update_evict_point _ h
  | commit => exact h
  | read k =>
    have hmain := get_snd_main s k
    simp only [execOp]
    rw [hmain]
    exact h

theorem consistent_execTrace {K V : Type} [DecidableEq K] (ops : List (Op K V))
    (s : DualCache K V) (h : consistent s.main) (hclean : cleanTrace s ops = true) :
    consistent (execTrace s ops).main := by
  induction ops generalizing s with
  | nil => exact h
  | cons op rest ih =>
    simp only [cleanTrace, Bool.and_eq_true] at hclean
    exact ih (execOp s op) (consistent_execOp s op h hclean.1) hclean.2

/-! ## Counter-sum bookkeeping lemmas -/

theorem satAdd_one_of_lt {a : Nat} (h : a < U64MAX) : satAdd a 1 = a + 1 := by
  unfold satAdd
  omega

theorem swap_nodes_sumCounters {K V : Type} [DecidableEq K] (c : Cache K V) (i j : Nat) :
    sumCounters (c.swap_nodes i j).arena = sumCounters c.arena := by
  by_cases hguard : i = j ∨ c.arena.length ≤ i ∨ c.arena.length ≤ j
  · rw [swap_nodes_id c hguard]
  · push_neg at hguard
    obtain ⟨hij, hi, hj⟩ := hguard
    have hx := List.getElem?_eq_getElem (l := c.arena) (n := i) hi
    have hy := List.getElem?_eq_getElem (l := c.arena) (n := j) hj
    rw [swap_nodes_eq c hij hx hy]
    exact sumCounters_swap c.arena hx hy hij

theorem update_value_fields {K V : Type} [DecidableEq K] (c : Cache K V) (k : K) (v : V) :
    (c.update_value k v).counter_sum = c.counter_sum ∧
    sumCounters (c.update_value k v).arena = sumCounters c.arena ∧
    (c.update_value k v).evict_point = c.evict_point ∧
    (c.update_value k v).capacity = c.capacity ∧
    (c.update_value k v).arena.length = c.arena.length ∧
    (c.update_value k v).index = c.index := by
  unfold Cache.update_value
  split
  next => exact ⟨rfl, rfl, rfl, rfl, rfl, rfl⟩
  next i hl =>
    split
    next => exact ⟨rfl, rfl, rfl, rfl, rfl, rfl⟩
    next nd hai =>
      split
      next hkey =>
        have hset := sumCounters_set c.arena i { nd with value := v } hai
        exact ⟨rfl, by dsimp at hset ⊢; omega, rfl, rfl, by simp [List.length_set], rfl⟩
      next hkey => exact ⟨rfl, rfl, rfl, rfl, rfl, rfl⟩

theorem viscous_climb_sum {K V : Type} [DecidableEq K] (c : Cache K V) (k : K) (now : Nat)
    (hsum : c.counter_sum = sumCounters c.arena) (hlt : c.counter_sum < U64MAX) :
    (c.viscous_climb k now).counter_sum = sumCounters (c.viscous_climb k now).arena ∧
    (c.viscous_climb k now).counter_sum ≤ c.counter_sum + 1 ∧
    (c.viscous_climb k now).evict_point = c.evict_point ∧
    (c.viscous_climb k now).capacity = c.capacity := by
  unfold Cache.viscous_climb
  split
  next => exact ⟨hsum, by omega, rfl, rfl⟩
  next i hl =>
    split
    next => exact ⟨hsum, by omega, rfl, rfl⟩
    next nd hai =>
      split
      next hkey =>
        have hndc : nd.counter ≤ sumCounters c.arena :=
          counter_le_sumCounters (List.getElem?_mem hai)
        have hS : sumCounters (c.arena.set i { nd with counter := satAdd nd.counter 1 }) =
            sumCounters c.arena + 1 := by
          have hset := sumCounters_set c.arena i { nd with counter := satAdd nd.counter 1 } hai
          have hc : satAdd nd.counter 1 = nd.counter + 1 := satAdd_one_of_lt (by omega)
          dsimp at hset
          omega
        have hsat : satAdd c.counter_sum 1 = c.counter_sum + 1 := satAdd_one_of_lt hlt
        dsimp only
        split
        next hexp =>
          split
          next htarget =>
            refine ⟨?_, ?_, ?_, ?_⟩ <;>
              simp only [swap_nodes_counter_sum, swap_nodes_sumCounters,
                swap_nodes_evict_point, swap_nodes_capacity, hsat, hS] <;> omega
          next htarget =>
            exact ⟨by simp only [hsat, hS]; omega, by simp only [hsat]; omega, rfl, rfl⟩
        next hexp =>
          split
          next hi0 =>
            refine ⟨?_, ?_, ?_, ?_⟩ <;>
              simp only [swap_nodes_counter_sum, swap_nodes_sumCounters,
                swap_nodes_evict_point, swap_nodes_capacity, hsat, hS] <;> omega
          next hi0 =>
            exact ⟨by simp only [hsat, hS]; omega, by simp only [hsat]; omega, rfl, rfl⟩
      next hkey => exact ⟨hsum, by omega, rfl, rfl⟩

theorem gatsby_insert_sum {K V : Type} [DecidableEq K] (c : Cache K V)
    (k : K) (v : V) (ttl now : Nat)
    (hsafe : c.arena.length = c.capacity → c.arena.length ≤ c.evict_point)
    (hsum : c.counter_sum = sumCounters c.arena) (hlt : c.counter_sum < U64MAX) :
    (c.gatsby_insert k v ttl now).counter_sum = sumCounters (c.gatsby_insert k v ttl now).arena ∧
    (c.gatsby_insert k v ttl now).counter_sum ≤ c.counter_sum + 1 ∧
    (c.gatsby_insert k v ttl now).evict_point = c.evict_point ∧
    (c.gatsby_insert k v ttl now).capacity = c.capacity := by
  have hsat : satAdd c.counter_sum 1 = c.counter_sum + 1 := satAdd_one_of_lt hlt
  cases hsome : idxLookup c.cliffTruncate.index k with
  | some i =>
    rw [gatsby_insert_existing c k v ttl now (by rw [hsome]; rfl)]
    rw [cliffTruncate_id c hsafe]
    obtain ⟨h1, h2, h3, h4, _, _⟩ := update_value_fields c k v
    exact ⟨by rw [h1, h2]; exact hsum, by omega, h3, h4⟩
  | none =>
    rw [gatsby_insert_fresh c k v ttl now hsome, cliffTruncate_id c hsafe]
    have hSapp : sumCounters (c.arena ++ [(⟨k, v, 1, now + ttl⟩ : Node K V)]) =
        sumCounters c.arena + 1 := sumCounters_append c.arena _
    split
    next htarget =>
      refine ⟨?_, ?_, ?_, ?_⟩ <;>
        simp only [swap_nodes_counter_sum, swap_nodes_sumCounters,
          swap_nodes_evict_point, swap_nodes_capacity, hsat, hSapp] <;> omega
    next htarget =>
      exact ⟨by simp only [hsat, hSapp]; omega, by simp only [hsat]; omega, rfl, rfl⟩

theorem gatsby_insert_length {K V : Type} [DecidableEq K] (c : Cache K V)
    (k : K) (v : V) (ttl now : Nat) :
    (c.gatsby_insert k v ttl now).arena.length = (c.cliffTruncate).arena.length ∨
    (c.gatsby_insert k v ttl now).arena.length = (c.cliffTruncate).arena.length + 1 := by
  cases hsome : idxLookup c.cliffTruncate.index k with
  | some i =>
    rw [gatsby_insert_existing c k v ttl now (by rw [hsome]; rfl)]
    exact Or.inl (update_value_fields c.cliffTruncate k v).2.2.2.2.1
  | none =>
    rw [gatsby_insert_fresh c k v ttl now hsome]
    right
    split
    · rw [swap_nodes_arena_length]
      simp
    · simp

theorem viscous_climb_arena_length {K V : Type} [DecidableEq K] (c : Cache K V)
    (k : K) (now : Nat) :
    (c.viscous_climb k now).arena.length = c.arena.length := by
  unfold Cache.viscous_climb
  split
  next => rfl
  next i hl =>
    split
    next => rfl
    next nd hai =>
      split
      next hkey =>
        dsimp only
        split
        next hexp =>
          split
          next h => simp [swap_nodes_arena_length, List.length_set]
          next h => simp [List.length_set]
        next hexp =>
          split
          next h => simp [swap_nodes_arena_length, List.length_set]
          next h => simp [List.length_set]
      next hkey => rfl

theorem finalClamp_le (x cap2 : Nat) : (if x > cap2 then cap2 else x) ≤ cap2 := by
  split_ifs <;> omega

theorem update_evict_point_frame {K V : Type} [DecidableEq K] (c : Cache K V) :
    (c.update_evict_point).arena = c.arena ∧
    (c.update_evict_point).index = c.index ∧
    (c.update_evict_point).counter_sum = c.counter_sum ∧
    (c.update_evict_point).capacity = c.capacity := by
  unfold Cache.update_evict_point
  split
  · exact ⟨rfl, rfl, rfl, rfl⟩
  · exact ⟨rfl, rfl, rfl, rfl⟩

theorem update_evict_point_invariant {K V : Type} [DecidableEq K] (c : Cache K V)
    (hep : c.evict_point ≤ c.capacity)
    (hP3 : c.evict_point < c.capacity → c.capacity < c.arena.length) :
    (c.update_evict_point).evict_point ≤ c.capacity ∧
    ((c.update_evict_point).evict_point < c.capacity → c.capacity < c.arena.length) := by
  by_cases hne : c.arena.length = 0
  · have hid : c.update_evict_point = c := by
      unfold Cache.update_evict_point
      rw [if_pos hne]
    rw [hid]
    exact ⟨hep, hP3⟩
  · constructor
    · unfold Cache.update_evict_point
      rw [if_neg hne]
      dsimp only
      exact finalClamp_le _ _
    · intro hlt
      by_contra hlen
      have hnp : ¬ c.evict_point < c.capacity := fun h => hlen (hP3 h)
      have hnone : c.arena[c.evict_point]? = none := List.getElem?_len_le (by omega)
      have hcomp : (c.update_evict_point).evict_point = c.evict_point := by
        unfold Cache.update_evict_point
        rw [if_neg hne]
        dsimp only
        rw [if_neg hnp]
        simp only [hnone]
        rw [if_neg (show ¬ c.evict_point > c.capacity by omega)]
      omega

theorem noDrift_execOp {K V : Type} [DecidableEq K] (s : DualCache K V) (op : Op K V)
    (hop : noDriftOp op = true)
    (hsum : s.main.counter_sum = sumCounters s.main.arena)
    (hep : s.main.evict_point ≤ s.main.capacity)
    (hP3 : s.main.evict_point < s.main.capacity →
      s.main.capacity < s.main.arena.length)
    (hlt : s.main.counter_sum < U64MAX) :
    (execOp s op).main.counter_sum = sumCounters (execOp s op).main.arena ∧
    (execOp s op).main.evict_point ≤ (execOp s op).main.capacity ∧
    ((execOp s op).main.evict_point < (execOp s op).main.capacity →
      (execOp s op).main.capacity < (execOp s op).main.arena.length) ∧
    (execOp s op).main.counter_sum ≤ s.main.counter_sum + 1 := by
  cases op with
  | insert k v ttl now =>
    simp only [execOp, DualCache.insert]
    have hsafe : s.main.arena.length = s.main.capacity →
        s.main.arena.length ≤ s.main.evict_point := by
      intro hfull
      by_cases h : s.main.evict_point < s.main.capacity
      · have := hP3 h
        omega
      · omega
    have hdisj := gatsby_insert_length s.main k v ttl now
    rw [cliffTruncate_id s.main hsafe] at hdisj
    obtain ⟨h1, h2, h3, h4⟩ := gatsby_insert_sum s.main k v ttl now hsafe hsum hlt
    refine ⟨h1, by rw [h3, h4]; exact hep, ?_, h2⟩
    rw [h3, h4]
    intro h
    have := hP3 h
    rcases hdisj with hlen | hlen <;> omega
  | delete k => cases hop
  | update k v =>
    simp only [execOp, DualCache.update]
    obtain ⟨h1, h2, h3, h4, h5, _⟩ := update_value_fields s.main k v
    refine ⟨by rw [h1, h2]; exact hsum, by rw [h3, h4]; exact hep, ?_, by omega⟩
    rw [h3, h4, h5]
    exact hP3
  | signal k now =>
    simp only [execOp, DualCache.process_read_signal]
    have hlen := viscous_climb_arena_length s.main k now
    obtain ⟨h1, h2, h3, h4⟩ := viscous_climb_sum s.main k now hsum hlt
    refine ⟨h1, by rw [h3, h4]; exact hep, ?_, h2⟩
    rw [h3, h4, hlen]
    exact hP3
  | maintain =>
    simp only [execOp, DualCache.maintenance]
    obtain ⟨hf1, hf2, hf3, hf4⟩ := update_evict_point_frame s.main
    obtain ⟨hi1, hi2⟩ := update_evict_point_invariant s.main hep hP3
    refine ⟨by rw [hf3, hf1]; exact hsum, by rw [hf4]; exact hi1, ?_,
      by rw [hf3]; omega⟩
    rw [hf4, hf1]
    exact hi2
  | commit =>
    exact ⟨hsum, hep, hP3, by simp only [execOp, DualCache.commit]; omega⟩
  | read k =>
    have hmain := get_snd_main s k
    simp only [execOp]
    rw [hmain]
    exact ⟨hsum, hep, hP3, by omega⟩

theorem noDrift_execTrace {K V : Type} [DecidableEq K] (ops : List (Op K V))
    (s : DualCache K V) (hops : ops.all noDriftOp = true)
    (hsum : s.main.counter_sum = sumCounters s.main.arena)
    (hep : s.main.evict_point ≤ s.main.capacity)
    (hP3 : s.main.evict_point < s.main.capacity →
      s.main.capacity < s.main.arena.length)
    (hbound : s.main.counter_sum + ops.length ≤ U64MAX) :
    (execTrace s ops).main.counter_sum = sumCounters (execTrace s ops).main.arena := by
  induction ops generalizing s with
  | nil => exact hsum
  | cons op rest ih =>
    simp only [List.all_cons, Bool.and_eq_true] at hops
    have hlen : s.main.counter_sum + (rest.length + 1) ≤ U64MAX := by
      simpa [List.length_cons] using hbound
    have hlt : s.main.counter_sum < U64MAX := by omega
    obtain ⟨h1, h2, h3, h4⟩ := noDrift_execOp s op hops.1 hsum hep hP3 hlt
    exact ih (execOp s op) hops.2 h1 h2 h3 (by omega)

/-! ## More swap and truncation helpers -/

theorem swap_nodes_getElem?_to {K V : Type} [DecidableEq K] (c : Cache K V)
    {i j : Nat} {x : Node K V} (hj : j < c.arena.length) (hx : c.arena[i]? = some x) :
    (c.swap_nodes i j).arena[j]? = some x := by
  by_cases hij : i = j
  · subst hij
    rw [swap_nodes_id c (Or.inl rfl)]
    exact hx
  · have hy := List.getElem?_eq_getElem (l := c.arena) (n := j) hj
    rw [swap_nodes_eq c hij hx hy]
    exact getElem?_set_self_of_some (by rw [List.getElem?_set_ne hij]; exact hy)

theorem swap_nodes_getElem?_other {K V : Type} [DecidableEq K] (c : Cache K V)
    {i j n : Nat} (hni : n ≠ i) (hnj : n ≠ j) :
    (c.swap_nodes i j).arena[n]? = c.arena[n]? := by
  by_cases hguard : i = j ∨ c.arena.length ≤ i ∨ c.arena.length ≤ j
  · rw [swap_nodes_id c hguard]
  · push_neg at hguard
    obtain ⟨hij, hi, hj⟩ := hguard
    have hx := List.getElem?_eq_getElem (l := c.arena) (n := i) hi
    have hy := List.getElem?_eq_getElem (l := c.arena) (n := j) hj
    rw [swap_nodes_eq c hij hx hy]
    rw [List.getElem?_set_ne (fun he => hnj he.symm), List.getElem?_set_ne (fun he => hni he.symm)]

theorem cliffTruncate_fields {K V : Type} [DecidableEq K] (c : Cache K V) :
    (c.cliffTruncate).index = c.index ∧
    (c.cliffTruncate).counter_sum = c.counter_sum ∧
    (c.cliffTruncate).evict_point = c.evict_point ∧
    (c.cliffTruncate).capacity = c.capacity := by
  unfold Cache.cliffTruncate
  split
  · split
    · exact ⟨rfl, rfl, rfl, rfl⟩
    · exact ⟨rfl, rfl, rfl, rfl⟩
  · exact ⟨rfl, rfl, rfl, rfl⟩

theorem cliffTruncate_length {K V : Type} [DecidableEq K] (c : Cache K V) :
    (c.cliffTruncate).arena.length ≤ c.arena.length ∧
    (c.arena.length = c.capacity → c.evict_point < c.arena.length →
      (c.cliffTruncate).arena.length = c.evict_point) ∧
    (c.arena.length = c.capacity → c.arena.length ≤ c.evict_point →
      (c.cliffTruncate).arena.length = c.arena.length) := by
  unfold Cache.cliffTruncate
  by_cases h1 : c.arena.length = c.capacity
  · rw [if_pos h1]
    by_cases h2 : c.evict_point < c.arena.length
    · rw [if_pos h2]
      refine ⟨?_, fun _ _ => ?_, fun _ h => by omega⟩ <;>
        simp [List.length_take] <;> omega
    · rw [if_neg h2]
      exact ⟨Nat.le_refl _, fun _ h => by omega, fun _ _ => rfl⟩
  · rw [if_neg h1]
    exact ⟨Nat.le_refl _, fun h _ => absurd h h1, fun h _ => absurd h h1⟩

/-! ## Claim C3 -/

/-- C3 (counterexample): `update_evict_point` does not clamp `evict_point`
into `[0, n-1]`. Reachable state: `new(10)`, one insert, then maintenance;
with one node the claim caps the resulting `evict_point` by
`(n - 1) + step = 1`, but the code leaves it at 10. -/
theorem C3_counterexample :
    (execTrace (DualCache.new 10 : DualCache Nat Nat)
      [Op.insert 1 10 100 0, Op.maintain]).main.arena.length = 1 ∧
    (execTrace (DualCache.new 10 : DualCache Nat Nat)
      [Op.insert 1 10 100 0, Op.maintain]).main.evict_point = 10 ∧
    ¬ (execTrace (DualCache.new 10 : DualCache Nat Nat)
        [Op.insert 1 10 100 0, Op.maintain]).main.evict_point ≤
      ((execTrace (DualCache.new 10 : DualCache Nat Nat)
        [Op.insert 1 10 100 0, Op.maintain]).main.arena.length - 1) +
      max ((execTrace (DualCache.new 10 : DualCache Nat Nat)
        [Op.insert 1 10 100 0, Op.maintain]).main.capacity / 10) 1 := by
  decide

/-- C3 (amended): on a non-empty cache `update_evict_point` touches only
`evict_point`; with `avg = counter_sum / n` and `step = max(1, capacity/10)`
it first grows `evict_point` to `grownEvictPoint` (growth happens whenever
`evict_point < capacity`, regardless of the boundary node); then, when the
grown position holds a node, a strong boundary (`counter > avg`) keeps the
grown value and a weak boundary (`counter ≤ avg`) shrinks it by `step`
(saturating, and never ending above the original `evict_point`); an
out-of-range grown position keeps the grown value; the result is finally
capped at `capacity`. No clamp into `[0, n-1]` is performed. -/
theorem membraneArith1 (cnt avg g step cap : Nat) (hcmp : avg < cnt) :
    (if (if cnt > avg then g else g - step) > cap then cap
     else (if cnt > avg then g else g - step)) = min g cap := by
  have h1 : cnt > avg := hcmp
  rw [if_pos h1]
  simp only [Nat.min_def]
  split_ifs <;> omega

theorem membraneArith2 (cnt avg g step cap : Nat) (hcmp : cnt ≤ avg) :
    (if (if cnt > avg then g else g - step) > cap then cap
     else (if cnt > avg then g else g - step)) = min (g - step) cap := by
  have h1 : ¬ cnt > avg := by omega
  rw [if_neg h1]
  simp only [Nat.min_def]
  split_ifs <;> omega

theorem membraneArith3 (g cap : Nat) :
    (if g > cap then cap else g) = min g cap := by
  simp only [Nat.min_def]
  split_ifs <;> omega

theorem membraneArith4 (cnt avg ep step cap : Nat) (hcmp : cnt ≤ avg) :
    (if (if cnt > avg then (if ep < cap then min (ep + step) cap else ep)
         else (if ep < cap then min (ep + step) cap else ep) - step) > cap
     then cap
     else (if cnt > avg then (if ep < cap then min (ep + step) cap else ep)
           else (if ep < cap then min (ep + step) cap else ep) - step)) ≤ ep := by
  have h1 : ¬ cnt > avg := by omega
  rw [if_neg h1]
  simp only [Nat.min_def]
  split_ifs <;> omega

theorem membraneArith5 (ep step cap : Nat) (h : ep < cap) (hstep : 1 ≤ step) :
    ep < min (ep + step) cap := by
  simp only [Nat.min_def]
  split_ifs <;> omega

theorem C3_amended {K V : Type} [DecidableEq K] (c : Cache K V) (h : c.arena.length ≠ 0) :
    ((c.update_evict_point).arena = c.arena ∧
     (c.update_evict_point).index = c.index ∧
     (c.update_evict_point).counter_sum = c.counter_sum ∧
     (c.update_evict_point).capacity = c.capacity) ∧
    (∀ nd, c.arena[grownEvictPoint c]? = some nd →
      (c.counter_sum / max c.arena.length 1 < nd.counter →
        (c.update_evict_point).evict_point = min (grownEvictPoint c) c.capacity) ∧
      (nd.counter ≤ c.counter_sum / max c.arena.length 1 →
        (c.update_evict_point).evict_point =
          min (grownEvictPoint c - max (c.capacity / 10) 1) c.capacity ∧
        (c.update_evict_point).evict_point ≤ c.evict_point)) ∧
    (c.arena[grownEvictPoint c]? = none →
      (c.update_evict_point).evict_point = min (grownEvictPoint c) c.capacity) ∧
    (c.evict_point < c.capacity → c.evict_point < grownEvictPoint c) := by
  unfold Cache.update_evict_point
  rw [if_neg h]
  dsimp only
  rw [Nat.max_eq_left (show 1 ≤ c.arena.length by omega)]
  refine ⟨⟨rfl, rfl, rfl, rfl⟩, ?_, ?_, ?_⟩
  · intro nd hnd
    simp only [grownEvictPoint] at hnd ⊢
    simp only [hnd]
    constructor
    · intro hcmp
      exact membraneArith1 _ _ _ _ _ hcmp
    · intro hcmp
      exact ⟨membraneArith2 _ _ _ _ _ hcmp, membraneArith4 _ _ _ _ _ hcmp⟩
  · intro hnone
    simp only [grownEvictPoint] at hnone ⊢
    simp only [hnone]
    exact membraneArith3 _ _
  · intro hlt
    simp only [grownEvictPoint]
    rw [if_pos hlt]
    exact membraneArith5 _ _ _ hlt (Nat.le_max_right _ _)

/-! ## Claim C4 -/

theorem swap_nodes_getElem?_fst {K V : Type} [DecidableEq K] (c : Cache K V)
    {i j : Nat} {y : Node K V} (hi : i < c.arena.length) (hy : c.arena[j]? = some y) :
    (c.swap_nodes i j).arena[i]? = some y := by
  by_cases hij : i = j
  · subst hij
    rw [swap_nodes_id c (Or.inl rfl)]
    exact hy
  · have hx := List.getElem?_eq_getElem (l := c.arena) (n := i) hi
    rw [swap_nodes_eq c hij hx hy]
    rw [List.getElem?_set_ne (fun he => hij he.symm)]
    exact getElem?_set_self_of_some hx

/-- C4: for a valid, unexpired index entry `index[k] = i`, `viscous_climb`
increments that node's counter by one (saturating) and `counter_sum`
correspondingly, moves the node from position `i` to `i - 1` (staying at 0
when `i = 0`, so a single call changes the rank by at most one position),
moves the displaced neighbour to position `i`, and touches nothing else. -/
theorem C4_viscous_climb_spec {K V : Type} [DecidableEq K] (c : Cache K V) (k : K)
    (now i : Nat) (nd : Node K V)
    (hl : idxLookup c.index k = some i) (hai : c.arena[i]? = some nd)
    (hkey : nd.key = k) (hexp : now ≤ nd.time_stamp) :
    (c.viscous_climb k now).arena.length = c.arena.length ∧
    (c.viscous_climb k now).arena[i - 1]? =
      some { nd with counter := satAdd nd.counter 1 } ∧
    idxLookup (c.viscous_climb k now).index k = some (i - 1) ∧
    (c.viscous_climb k now).counter_sum = satAdd c.counter_sum 1 ∧
    (0 < i → (c.viscous_climb k now).arena[i]? = c.arena[i - 1]?) ∧
    (∀ j, j ≠ i → j ≠ i - 1 → (c.viscous_climb k now).arena[j]? = c.arena[j]?) ∧
    (c.viscous_climb k now).evict_point = c.evict_point ∧
    (c.viscous_climb k now).capacity = c.capacity := by
  have hilen : i < c.arena.length := (List.getElem?_eq_some_iff.mp hai).1
  have hstep : c.viscous_climb k now =
      (if 0 < i
       then ({ c with
               arena := c.arena.set i { nd with counter := satAdd nd.counter 1 },
               counter_sum := satAdd c.counter_sum 1 } : Cache K V).swap_nodes i (i - 1)
       else { c with
              arena := c.arena.set i { nd with counter := satAdd nd.counter 1 },
              counter_sum := satAdd c.counter_sum 1 }) := by
    unfold Cache.viscous_climb
    simp only [hl, hai]
    rw [if_pos hkey]
    dsimp only
    rw [if_neg (Nat.not_lt.mpr hexp)]
  rw [hstep]
  by_cases hi0 : 0 < i
  · rw [if_pos hi0]
    have hne : i ≠ i - 1 := by omega
    have hx : ({ c with
        arena := c.arena.set i { nd with counter := satAdd nd.counter 1 },
        counter_sum := satAdd c.counter_sum 1 } : Cache K V).arena[i]? =
        some { nd with counter := satAdd nd.counter 1 } := getElem?_set_self_of_some hai
    have hbm := List.getElem?_eq_getElem (l := c.arena) (n := i - 1) (by omega)
    have hy : ({ c with
        arena := c.arena.set i { nd with counter := satAdd nd.counter 1 },
        counter_sum := satAdd c.counter_sum 1 } : Cache K V).arena[i - 1]? =
        c.arena[i - 1]? := List.getElem?_set_ne hne
    have hlen1 : ({ c with
        arena := c.arena.set i { nd with counter := satAdd nd.counter 1 },
        counter_sum := satAdd c.counter_sum 1 } : Cache K V).arena.length = c.arena.length := by
      simp [List.length_set]
    refine ⟨?_, ?_, ?_, ?_, ?_, ?_, ?_, ?_⟩
    · rw [swap_nodes_arena_length, hlen1]
    · exact swap_nodes_getElem?_to _ (by rw [hlen1]; omega) hx
    · rw [swap_nodes_eq _ hne hx (by rw [hy]; exact hbm)]
      dsimp only
      rw [hkey]
      exact idxLookup_idxInsert_self _ _ _
    · rw [swap_nodes_counter_sum]
    · intro _
      rw [swap_nodes_getElem?_fst _ (by rw [hlen1]; omega) (by rw [hy]; exact hbm), hbm]
    · intro j hji hjim
      rw [swap_nodes_getElem?_other _ hji hjim]
      exact List.getElem?_set_ne (fun he => hji he.symm)
    · rw [swap_nodes_evict_point]
    · rw [swap_nodes_capacity]
  · rw [if_neg hi0]
    have hi0e : i = 0 := by omega
    subst hi0e
    refine ⟨by simp [List.length_set], getElem?_set_self_of_some hai, ?_, rfl,
      fun h0 => absurd h0 (by omega), ?_, rfl, rfl⟩
    · exact hl
    · intro j hj0 _
      exact List.getElem?_set_ne (fun he => hj0 he.symm)

/-! ## Claim C5 -/

/-- C5: inserting a fresh key appends a node with counter 1 and expiry
`now + ttl` at the tail of the (possibly truncated) arena, indexes it there,
bumps `counter_sum` by one (saturating), and then swaps the newcomer to
position `evict_point + 1` when that position exists, leaving it at the tail
otherwise; for a key already in the index the call delegates to
`update_value` and appends nothing. -/
theorem C5_gatsby_insert_spec {K V : Type} [DecidableEq K] (c : Cache K V)
    (k : K) (v : V) (ttl now : Nat) :
    (idxLookup (c.cliffTruncate).index k = none →
      (c.gatsby_insert k v ttl now).arena.length = (c.cliffTruncate).arena.length + 1 ∧
      (c.gatsby_insert k v ttl now).arena[
        if c.evict_point + 1 < (c.cliffTruncate).arena.length + 1
        then c.evict_point + 1 else (c.cliffTruncate).arena.length]? =
        some ⟨k, v, 1, now + ttl⟩ ∧
      idxLookup (c.gatsby_insert k v ttl now).index k =
        some (if c.evict_point + 1 < (c.cliffTruncate).arena.length + 1
              then c.evict_point + 1 else (c.cliffTruncate).arena.length) ∧
      (c.gatsby_insert k v ttl now).counter_sum = satAdd c.counter_sum 1 ∧
      (c.counter_sum < U64MAX →
        (c.gatsby_insert k v ttl now).counter_sum = c.counter_sum + 1)) ∧
    ((idxLookup (c.cliffTruncate).index k).isSome →
      c.gatsby_insert k v ttl now = (c.cliffTruncate).update_value k v ∧
      (c.gatsby_insert k v ttl now).arena.length = (c.cliffTruncate).arena.length) := by
  constructor
  · intro hnone
    have hep := (cliffTruncate_fields c).2.2.1
    have hcsum := (cliffTruncate_fields c).2.1
    rw [gatsby_insert_fresh c k v ttl now hnone, hep]
    have hxR : ({ c.cliffTruncate with
        arena := c.cliffTruncate.arena ++ [(⟨k, v, 1, now + ttl⟩ : Node K V)],
        index := idxInsert c.cliffTruncate.index k c.cliffTruncate.arena.length,
        counter_sum := satAdd c.cliffTruncate.counter_sum 1 } : Cache K V).arena[
          c.cliffTruncate.arena.length]? = some (⟨k, v, 1, now + ttl⟩ : Node K V) :=
      List.getElem?_concat_length _ _
    by_cases htar : c.evict_point + 1 < c.cliffTruncate.arena.length + 1
    · simp only [htar, if_true]
      refine ⟨?_, ?_, ?_, ?_, ?_⟩
      · rw [swap_nodes_arena_length]
        simp [List.length_append]
      · exact swap_nodes_getElem?_to _ (by simp [List.length_append]; omega) hxR
      · by_cases hteq : c.cliffTruncate.arena.length = c.evict_point + 1
        · rw [swap_nodes_id _ (Or.inl hteq)]
          dsimp only
          rw [← hteq]
          exact idxLookup_idxInsert_self _ _ _
        · have hlt : c.evict_point + 1 < c.cliffTruncate.arena.length := by omega
          have hb0 := List.getElem?_eq_getElem (l := c.cliffTruncate.arena)
            (n := c.evict_point + 1) hlt
          have hyR : ({ c.cliffTruncate with
              arena := c.cliffTruncate.arena ++ [(⟨k, v, 1, now + ttl⟩ : Node K V)],
              index := idxInsert c.cliffTruncate.index k c.cliffTruncate.arena.length,
              counter_sum := satAdd c.cliffTruncate.counter_sum 1 } : Cache K V).arena[
                c.evict_point + 1]? = some (c.cliffTruncate.arena[c.evict_point + 1]) := by
            dsimp only
            rw [List.getElem?_append_left hlt]
            exact hb0
          rw [swap_nodes_eq _ hteq hxR hyR]
          dsimp only
          exact idxLookup_idxInsert_self _ _ _
      · rw [swap_nodes_counter_sum]
        dsimp only
        rw [hcsum]
      · intro hmax
        rw [swap_nodes_counter_sum]
        dsimp only
        rw [hcsum]
        exact satAdd_one_of_lt hmax
    · simp only [htar, if_false]
      refine ⟨by simp [List.length_append], hxR, ?_, ?_, ?_⟩
      · exact idxLookup_idxInsert_self _ _ _
      · dsimp only
        rw [hcsum]
      · intro hmax
        rw [hcsum]
        exact satAdd_one_of_lt hmax
  · intro hsome
    refine ⟨gatsby_insert_existing c k v ttl now hsome, ?_⟩
    rw [gatsby_insert_existing c k v ttl now hsome]
    exact (update_value_fields _ _ _).2.2.2.2.1

/-! ## Claim C7 -/

/-- C7 (amended): deleting a valid key at position `i` when `evict_point + 1`
is inside the arena performs the two swaps and the pop, shrinking the arena
by one node and removing `k` from the index; every position strictly below
`evict_point` other than `i` itself is untouched (when the victim sits inside
the safe zone, its own slot receives the node from `evict_point + 1`). When
`evict_point + 1` is out of range the operation swap-removes: the last node
moves into position `i`, the tail is popped, and `k` is removed. -/
theorem C7_amended {K V : Type} [DecidableEq K] (c : Cache K V) (k : K) (i : Nat)
    (nd : Node K V)
    (hl : idxLookup c.index k = some i) (hai : c.arena[i]? = some nd) (hkey : nd.key = k) :
    (c.evict_point + 1 < c.arena.length →
      (c.double_swap_delete k).arena.length = c.arena.length - 1 ∧
      idxLookup (c.double_swap_delete k).index k = none ∧
      (∀ j, j < c.evict_point → j ≠ i →
        (c.double_swap_delete k).arena[j]? = c.arena[j]?)) ∧
    (c.arena.length ≤ c.evict_point + 1 →
      (c.double_swap_delete k).arena.length = c.arena.length - 1 ∧
      idxLookup (c.double_swap_delete k).index k = none ∧
      (i < c.arena.length - 1 →
        (c.double_swap_delete k).arena[i]? = c.arena[c.arena.length - 1]?) ∧
      (∀ j, j < c.arena.length - 1 → j ≠ i →
        (c.double_swap_delete k).arena[j]? = c.arena[j]?)) := by
  have hilen : i < c.arena.length := (List.getElem?_eq_some_iff.mp hai).1
  constructor
  · intro htar
    have hlen1 : (c.swap_nodes i (c.evict_point + 1)).arena.length = c.arena.length :=
      swap_nodes_arena_length _ _ _
    have hg : (c.swap_nodes i (c.evict_point + 1)).arena[c.evict_point + 1]? = some nd :=
      swap_nodes_getElem?_to _ htar hai
    have hlen2 : ((c.swap_nodes i (c.evict_point + 1)).swap_nodes (c.evict_point + 1)
        ((c.swap_nodes i (c.evict_point + 1)).arena.length - 1)).arena.length =
        c.arena.length := by
      rw [swap_nodes_arena_length, hlen1]
    have hpop : ((c.swap_nodes i (c.evict_point + 1)).swap_nodes (c.evict_point + 1)
        ((c.swap_nodes i (c.evict_point + 1)).arena.length - 1)).arena[
          ((c.swap_nodes i (c.evict_point + 1)).swap_nodes (c.evict_point + 1)
            ((c.swap_nodes i (c.evict_point + 1)).arena.length - 1)).arena.length - 1]? =
        some nd := by
      rw [hlen2, ← hlen1]
      exact swap_nodes_getElem?_to _ (by omega) hg
    have hres : c.double_swap_delete k =
        { ((c.swap_nodes i (c.evict_point + 1)).swap_nodes (c.evict_point + 1)
            ((c.swap_nodes i (c.evict_point + 1)).arena.length - 1)) with
          arena := ((c.swap_nodes i (c.evict_point + 1)).swap_nodes (c.evict_point + 1)
            ((c.swap_nodes i (c.evict_point + 1)).arena.length - 1)).arena.dropLast,
          index := idxRemove ((c.swap_nodes i (c.evict_point + 1)).swap_nodes
            (c.evict_point + 1)
            ((c.swap_nodes i (c.evict_point + 1)).arena.length - 1)).index nd.key } := by
      unfold Cache.double_swap_delete
      simp only [hl, hai]
      rw [if_pos hkey]
      rw [if_neg (show ¬ c.arena.length ≤ c.evict_point + 1 by omega)]
      simp only [hpop]
    rw [hres]
    refine ⟨?_, ?_, ?_⟩
    · dsimp only
      rw [List.length_dropLast, hlen2]
    · dsimp only
      rw [← hkey]
      exact idxLookup_idxRemove_self _ _
    · intro j hj hji
      dsimp only
      rw [List.getElem?_dropLast, hlen2, if_pos (by omega)]
      rw [swap_nodes_getElem?_other _ (by omega) (by omega)]
      exact swap_nodes_getElem?_other _ hji (by omega)
  · intro hfall
    have hlast := List.getElem?_eq_getElem (l := c.arena) (n := c.arena.length - 1)
      (by omega)
    have hres : c.double_swap_delete k =
        { c with
          arena := (c.arena.set i (c.arena[c.arena.length - 1])).dropLast,
          index := idxRemove
            (if i < ((c.arena.set i (c.arena[c.arena.length - 1])).dropLast).length then
              match ((c.arena.set i (c.arena[c.arena.length - 1])).dropLast)[i]? with
              | some moved => idxInsert c.index moved.key i
              | none => c.index
             else c.index) k } := by
      unfold Cache.double_swap_delete
      simp only [hl, hai]
      rw [if_pos hkey]
      rw [if_pos hfall]
      simp only [hlast]
    rw [hres]
    refine ⟨?_, ?_, ?_, ?_⟩
    · dsimp only
      rw [List.length_dropLast, List.length_set]
    · dsimp only
      exact idxLookup_idxRemove_self _ _
    · intro hi_lt
      dsimp only
      rw [List.getElem?_dropLast]
      simp only [List.length_set]
      rw [if_pos hi_lt]
      rw [getElem?_set_self_of_some hai, hlast]
    · intro j hj hji
      dsimp only
      rw [List.getElem?_dropLast]
      simp only [List.length_set]
      rw [if_pos hj]
      exact List.getElem?_set_ne (fun he => hji he.symm)

/-! ## Claim C8 -/

theorem update_value_valid {K V : Type} [DecidableEq K] (c : Cache K V) (k : K) (v : V)
    (i : Nat) (nd : Node K V)
    (hl : idxLookup c.index k = some i) (hai : c.arena[i]? = some nd) (hkey : nd.key = k) :
    c.update_value k v = { c with arena := c.arena.set i { nd with value := v } } := by
  unfold Cache.update_value
  simp only [hl, hai]
  rw [if_pos hkey]

theorem update_value_stale {K V : Type} [DecidableEq K] (c : Cache K V) (k : K) (v : V)
    (hstale : ∀ i, idxLookup c.index k = some i → ∀ nd, c.arena[i]? = some nd →
      nd.key ≠ k) :
    c.update_value k v = c := by
  unfold Cache.update_value
  split
  next => rfl
  next i hl =>
    split
    next => rfl
    next nd hai =>
      rw [if_neg (hstale i hl nd hai)]

/-- C8 (counterexample): `update` then `get` without an intervening `commit`
returns the previously committed value, not the new one: after
insert (value 10), commit, update (value 20), `get` still yields 10 even
though `main` holds 20. -/
theorem C8_counterexample :
    ((DualCache.get (execTrace (DualCache.new 2 : DualCache Nat Nat)
      [Op.insert 1 10 100 0, Op.commit, Op.update 1 20]) 1).1 = some 10) ∧
    (((execTrace (DualCache.new 2 : DualCache Nat Nat)
      [Op.insert 1 10 100 0, Op.commit, Op.update 1 20]).main.arena[0]?).map Node.value
      = some 20) ∧
    (DualCache.get (execTrace (DualCache.new 2 : DualCache Nat Nat)
      [Op.insert 1 10 100 0, Op.commit, Op.update 1 20]) 1).1 ≠ some 20 := by
  decide

/-- C8 (amended): for a valid index entry, `update_value` replaces exactly the
stored value (the node's counter, time stamp and position, all other nodes,
the index, `counter_sum`, `evict_point` and `capacity` are unchanged, as the
record equation shows); a subsequent read returns the new value once a
`commit` has republished the mirror; when the key is absent or stale the
entire state is unchanged. -/
theorem C8_amended {K V : Type} [DecidableEq K] (s : DualCache K V) (k : K) (v : V) :
    (∀ i nd, idxLookup s.main.index k = some i → s.main.arena[i]? = some nd →
      nd.key = k →
      s.main.update_value k v =
        { s.main with arena := s.main.arena.set i { nd with value := v } } ∧
      (((s.update k v).commit.get k).1 = some v)) ∧
    ((∀ i, idxLookup s.main.index k = some i →
        ∀ nd, s.main.arena[i]? = some nd → nd.key ≠ k) →
      s.update k v = s) := by
  constructor
  · intro i nd hl hai hkey
    have hval := update_value_valid s.main k v i nd hl hai hkey
    refine ⟨hval, ?_⟩
    unfold DualCache.update DualCache.commit DualCache.get
    dsimp only
    rw [hval]
    dsimp only
    simp only [hl, getElem?_set_self_of_some hai, hkey, eq_self_iff_true, if_true]
  · intro hstale
    have hmain : s.main.update_value k v = s.main := update_value_stale s.main k v hstale
    unfold DualCache.update
    rw [hmain]

/-! ## Claim C9 -/

/-- C9: `time_decay` (modelled from the spec, see its definition) halves every
node's counter in place, recomputes `counter_sum` as the exact sum of the new
counters, changes no position, length, index entry, `evict_point` or
`capacity`, and two consecutive decays turn a counter `c` into `c / 4`. -/
theorem C9_time_decay_spec {K V : Type} [DecidableEq K] (c : Cache K V) :
    (c.time_decay).arena.length = c.arena.length ∧
    (∀ (i : Nat) (nd : Node K V), c.arena[i]? = some nd →
      (c.time_decay).arena[i]? = some { nd with counter := nd.counter / 2 }) ∧
    (c.time_decay).index = c.index ∧
    (c.time_decay).counter_sum = sumCounters (c.time_decay).arena ∧
    (c.time_decay).evict_point = c.evict_point ∧
    (c.time_decay).capacity = c.capacity ∧
    (∀ (i : Nat) (nd : Node K V), c.arena[i]? = some nd →
      ((c.time_decay).time_decay).arena[i]? = some { nd with counter := nd.counter / 4 }) := by
  unfold Cache.time_decay
  dsimp only
  refine ⟨by simp, ?_, rfl, rfl, rfl, rfl, ?_⟩
  · intro i nd h
    rw [List.getElem?_map, h]
    rfl
  · intro i nd h
    rw [List.getElem?_map, List.getElem?_map, h]
    simp [Nat.div_div_eq_div_mul]

/-! ## Claim C10 -/

/-- C10: `get` returns a hit exactly when the mirror snapshot's index entry
for the key survives lazy validation (in-bounds slot holding the same key),
in which case the stored value is returned; the node's time stamp is never
consulted, so an expired-but-validated entry is still a hit. -/
theorem C10_get_spec {K V : Type} [DecidableEq K] (s : DualCache K V) (k : K) :
    ((s.get k).1 ≠ none ↔
      ∃ i nd, idxLookup s.mirror.index k = some i ∧ s.mirror.arena[i]? = some nd ∧
        nd.key = k) ∧
    (∀ i nd, idxLookup s.mirror.index k = some i → s.mirror.arena[i]? = some nd →
      nd.key = k → (s.get k).1 = some nd.value) := by
  unfold DualCache.get
  split
  next hl =>
    constructor
    · constructor
      · intro hne
        exact absurd rfl hne
      · rintro ⟨i, nd, h1, _, _⟩
        rw [hl] at h1
        cases h1
    · intro i nd h1 _ _
      rw [hl] at h1
      cases h1
  next i hl =>
    split
    next hai =>
      constructor
      · constructor
        · intro hne
          exact absurd rfl hne
        · rintro ⟨i2, nd, h1, h2, _⟩
          rw [hl] at h1
          rw [← Option.some.inj h1] at h2
          rw [hai] at h2
          cases h2
      · intro i2 nd h1 h2 _
        rw [hl] at h1
        rw [← Option.some.inj h1] at h2
        rw [hai] at h2
        cases h2
    next nd hai =>
      split
      next hkey =>
        constructor
        · constructor
          · intro _
            exact ⟨i, nd, hl, hai, hkey⟩
          · intro _
            simp
        · intro i2 nd2 h1 h2 _
          rw [hl] at h1
          have hi2 : i2 = i := (Option.some.inj h1).symm
          subst hi2
          rw [hai] at h2
          have hnd : nd = nd2 := Option.some.inj h2
          rw [← hnd]
      next hkey =>
        constructor
        · constructor
          · intro hne
            exact absurd rfl hne
          · rintro ⟨i2, nd2, h1, h2, hk2⟩
            rw [hl] at h1
            have hi2 : i2 = i := (Option.some.inj h1).symm
            subst hi2
            rw [hai] at h2
            have hnd : nd = nd2 := Option.some.inj h2
            exact absurd (show nd.key = k by rw [hnd]; exact hk2) hkey
        · intro i2 nd2 h1 h2 hk2
          rw [hl] at h1
          have hi2 : i2 = i := (Option.some.inj h1).symm
          subst hi2
          rw [hai] at h2
          have hnd : nd = nd2 := Option.some.inj h2
          exact absurd (by rw [hnd]; exact hk2) hkey

/-! ## Claims C1, C2, C6 -/

/-- C1 (counterexample): `double_swap_delete` never subtracts the victim's
counter from `counter_sum`: after `new(2)`, one insert and one delete the
arena is empty but `counter_sum` is still 1, so the invariant
`counter_sum = Σ arena[i].counter` fails after a public operation. -/
theorem C1_counterexample :
    (execTrace (DualCache.new 2 : DualCache Nat Nat)
      [Op.insert 1 10 100 0, Op.delete 1]).main.counter_sum ≠
    sumCounters (execTrace (DualCache.new 2 : DualCache Nat Nat)
      [Op.insert 1 10 100 0, Op.delete 1]).main.arena := by
  decide

/-- C1 (amended): starting from `new(capacity)`, `counter_sum` equals
`Σ arena[i].counter` after every operation of any trace built from insert,
update, signal processing, maintenance, commit and read (only delete, whose
victim's counter is never deducted, is excluded), as long as the trace is
shorter than `2^64` so the saturating counter-sum arithmetic is exact. On
such traces the discarding truncation never fires: whenever `evict_point`
drops below `capacity` the arena already exceeds `capacity`, and without
deletes its length never shrinks back to `capacity`. -/
theorem C1_amended {K V : Type} [DecidableEq K] (capacity : Nat) (ops : List (Op K V))
    (hcap : 1 ≤ capacity) (hops : ops.all noDriftOp = true)
    (hbound : ops.length ≤ U64MAX) :
    (execTrace (DualCache.new capacity) ops).main.counter_sum =
      sumCounters (execTrace (DualCache.new capacity) ops).main.arena := by
  exact noDrift_execTrace ops (DualCache.new capacity) hops rfl
    (by simp [DualCache.new])
    (by intro h; simp [DualCache.new] at h)
    (by simpa [DualCache.new] using hbound)

/-- C2 (counterexample): `new` initialises `evict_point` to `capacity`, so the
truncation guard `evict_point < arena.len()` is false on a full arena and the
insert appends anyway: after `new(1)` and two inserts the arena holds 2 nodes
while the capacity is 1. -/
theorem C2_counterexample :
    (execTrace (DualCache.new 1 : DualCache Nat Nat)
      [Op.insert 1 10 100 0, Op.insert 2 20 100 0]).main.arena.length = 2 ∧
    (execTrace (DualCache.new 1 : DualCache Nat Nat)
      [Op.insert 1 10 100 0, Op.insert 2 20 100 0]).main.capacity = 1 := by
  decide

/-- C2 (amended): `gatsby_insert` grows the arena by at most one node; on a
full arena (`length = capacity`) with `evict_point ≤ capacity` the truncation
runs first and the resulting length is at most `evict_point + 1`, hence at
most `capacity` whenever `evict_point < capacity`; but when
`evict_point = capacity` (as initialised by `new`) nothing is discarded and
the arena exceeds `capacity`. -/
theorem C2_amended {K V : Type} [DecidableEq K] (c : Cache K V) (k : K) (v : V)
    (ttl now : Nat) :
    (c.gatsby_insert k v ttl now).arena.length ≤ c.arena.length + 1 ∧
    (c.arena.length = c.capacity → c.evict_point ≤ c.capacity →
      (c.gatsby_insert k v ttl now).arena.length ≤ c.evict_point + 1) ∧
    (c.arena.length = c.capacity → c.evict_point < c.capacity →
      (c.gatsby_insert k v ttl now).arena.length ≤ c.capacity) := by
  obtain ⟨h1, h2, h3⟩ := cliffTruncate_length c
  have hdisj := gatsby_insert_length c k v ttl now
  refine ⟨?_, ?_, ?_⟩
  · rcases hdisj with hlen | hlen <;> omega
  · intro hful hle
    by_cases hep : c.evict_point < c.arena.length
    · have h2x := h2 hful hep
      rcases hdisj with hlen | hlen <;> omega
    · have h3x := h3 hful (by omega)
      rcases hdisj with hlen | hlen <;> omega
  · intro hful hlt
    by_cases hep : c.evict_point < c.arena.length
    · have h2x := h2 hful hep
      rcases hdisj with hlen | hlen <;> omega
    · omega

/-- C6 (counterexample): a signal hitting an expired node increments its
counter, removes its key from the index and leaves the node in the arena as a
tombstone: after insert (ttl 5 at time 0) and a signal at time 10, position 0
holds key 1 but the index no longer maps key 1, violating
`index[arena[i].key] = i`. -/
theorem C6_counterexample :
    ((execTrace (DualCache.new 2 : DualCache Nat Nat)
      [Op.insert 1 10 5 0, Op.signal 1 10]).main.arena[0]?).map Node.key = some 1 ∧
    idxLookup (execTrace (DualCache.new 2 : DualCache Nat Nat)
      [Op.insert 1 10 5 0, Op.signal 1 10]).main.index 1 = none := by
  decide

/-- C6 (amended): starting from `new(capacity)`, after every public operation
of a trace in which no signal processes an expired node and no insert runs a
discarding truncation, the index and arena are mutually consistent: every
index entry points at a slot holding its key and every slot's key is indexed
at that slot. Expiry demotion and cliff truncation are exactly the two code
paths that leave tombstones for lazy validation to absorb. -/
theorem C6_amended {K V : Type} [DecidableEq K] (capacity : Nat) (ops : List (Op K V))
    (hcap : 1 ≤ capacity) (hclean : cleanTrace (DualCache.new capacity) ops = true) :
    consistent (execTrace (DualCache.new capacity) ops).main := by
  apply consistent_execTrace ops (DualCache.new capacity) ?_ hclean
  constructor
  · intro k i hl
    simp [DualCache.new, idxLookup] at hl
  · intro i nd h
    simp [DualCache.new] at h

/-! ## Witnesses -/

/-- Witness for C1_amended at capacity 2 and a concrete six-operation trace
that includes a maintenance step. -/
theorem C1_amended_witness :
    (1 ≤ 2 ∧
     ([Op.insert 1 10 100 0, Op.update 1 20, Op.signal 1 50, Op.maintain,
       Op.commit, Op.read 1] : List (Op Nat Nat)).all noDriftOp = true ∧
     ([Op.insert 1 10 100 0, Op.update 1 20, Op.signal 1 50, Op.maintain,
       Op.commit, Op.read 1] : List (Op Nat Nat)).length ≤ U64MAX) ∧
    (execTrace (DualCache.new 2 : DualCache Nat Nat)
      [Op.insert 1 10 100 0, Op.update 1 20, Op.signal 1 50, Op.maintain,
       Op.commit, Op.read 1]).main.counter_sum =
      sumCounters (execTrace (DualCache.new 2 : DualCache Nat Nat)
        [Op.insert 1 10 100 0, Op.update 1 20, Op.signal 1 50, Op.maintain,
         Op.commit, Op.read 1]).main.arena :=
  ⟨⟨by decide, by decide, by decide⟩,
   C1_amended 2 _ (by decide) (by decide) (by decide)⟩

/-- Witness for C2_amended at a full two-node cache with `evict_point = 1`. -/
theorem C2_amended_witness :
    ((⟨[⟨1, 10, 1, 100⟩, ⟨2, 20, 1, 100⟩], [(1, 0), (2, 1)], 2, 1, 2⟩ :
        Cache Nat Nat).arena.length =
      (⟨[⟨1, 10, 1, 100⟩, ⟨2, 20, 1, 100⟩], [(1, 0), (2, 1)], 2, 1, 2⟩ :
        Cache Nat Nat).capacity ∧
     (⟨[⟨1, 10, 1, 100⟩, ⟨2, 20, 1, 100⟩], [(1, 0), (2, 1)], 2, 1, 2⟩ :
        Cache Nat Nat).evict_point <
      (⟨[⟨1, 10, 1, 100⟩, ⟨2, 20, 1, 100⟩], [(1, 0), (2, 1)], 2, 1, 2⟩ :
        Cache Nat Nat).capacity) ∧
    ((⟨[⟨1, 10, 1, 100⟩, ⟨2, 20, 1, 100⟩], [(1, 0), (2, 1)], 2, 1, 2⟩ :
        Cache Nat Nat).gatsby_insert 9 90 100 0).arena.length ≤
      (⟨[⟨1, 10, 1, 100⟩, ⟨2, 20, 1, 100⟩], [(1, 0), (2, 1)], 2, 1, 2⟩ :
        Cache Nat Nat).capacity :=
  ⟨⟨by decide, by decide⟩, (C2_amended _ 9 90 100 0).2.2 (by decide) (by decide)⟩

/-- Witness for C3_amended at a one-node cache whose grown membrane position
falls outside the arena. -/
theorem C3_amended_witness :
    ((⟨[⟨1, 10, 1, 100⟩], [(1, 0)], 1, 0, 10⟩ : Cache Nat Nat).arena.length ≠ 0 ∧
     (⟨[⟨1, 10, 1, 100⟩], [(1, 0)], 1, 0, 10⟩ : Cache Nat Nat).arena[
       grownEvictPoint (⟨[⟨1, 10, 1, 100⟩], [(1, 0)], 1, 0, 10⟩ : Cache Nat Nat)]? = none) ∧
    ((⟨[⟨1, 10, 1, 100⟩], [(1, 0)], 1, 0, 10⟩ : Cache Nat Nat).update_evict_point).evict_point =
      min (grownEvictPoint (⟨[⟨1, 10, 1, 100⟩], [(1, 0)], 1, 0, 10⟩ : Cache Nat Nat))
        (⟨[⟨1, 10, 1, 100⟩], [(1, 0)], 1, 0, 10⟩ : Cache Nat Nat).capacity :=
  ⟨⟨by decide, by decide⟩, (C3_amended _ (by decide)).2.2.1 (by decide)⟩

/-- Witness for C4_viscous_climb_spec: a valid unexpired hit on the key at
position 1 promotes it to position 0. -/
theorem C4_viscous_climb_witness :
    (idxLookup (⟨[⟨1, 10, 1, 100⟩, ⟨2, 20, 1, 100⟩], [(1, 0), (2, 1)], 2, 3, 3⟩ :
        Cache Nat Nat).index 2 = some 1 ∧
     (⟨[⟨1, 10, 1, 100⟩, ⟨2, 20, 1, 100⟩], [(1, 0), (2, 1)], 2, 3, 3⟩ :
        Cache Nat Nat).arena[1]? = some ⟨2, 20, 1, 100⟩ ∧
     (⟨2, 20, 1, 100⟩ : Node Nat Nat).key = 2 ∧
     (50 : Nat) ≤ (⟨2, 20, 1, 100⟩ : Node Nat Nat).time_stamp) ∧
    idxLookup ((⟨[⟨1, 10, 1, 100⟩, ⟨2, 20, 1, 100⟩], [(1, 0), (2, 1)], 2, 3, 3⟩ :
        Cache Nat Nat).viscous_climb 2 50).index 2 = some (1 - 1) :=
  ⟨⟨by decide, by decide, by decide, by decide⟩,
   (C4_viscous_climb_spec _ 2 50 1 ⟨2, 20, 1, 100⟩ (by decide) (by decide) (by decide)
     (by decide)).2.2.1⟩

/-- Witness for C5_gatsby_insert_spec: a fresh key lands at
`evict_point + 1`. -/
theorem C5_gatsby_insert_witness :
    idxLookup (⟨[⟨1, 10, 1, 100⟩, ⟨2, 20, 1, 100⟩, ⟨3, 30, 1, 100⟩],
        [(1, 0), (2, 1), (3, 2)], 3, 1, 5⟩ : Cache Nat Nat).cliffTruncate.index 7 = none ∧
    idxLookup ((⟨[⟨1, 10, 1, 100⟩, ⟨2, 20, 1, 100⟩, ⟨3, 30, 1, 100⟩],
        [(1, 0), (2, 1), (3, 2)], 3, 1, 5⟩ : Cache Nat Nat).gatsby_insert 7 70 100 0).index 7 =
      some (if (⟨[⟨1, 10, 1, 100⟩, ⟨2, 20, 1, 100⟩, ⟨3, 30, 1, 100⟩],
          [(1, 0), (2, 1), (3, 2)], 3, 1, 5⟩ : Cache Nat Nat).evict_point + 1 <
          (⟨[⟨1, 10, 1, 100⟩, ⟨2, 20, 1, 100⟩, ⟨3, 30, 1, 100⟩],
            [(1, 0), (2, 1), (3, 2)], 3, 1, 5⟩ : Cache Nat Nat).cliffTruncate.arena.length + 1
        then (⟨[⟨1, 10, 1, 100⟩, ⟨2, 20, 1, 100⟩, ⟨3, 30, 1, 100⟩],
          [(1, 0), (2, 1), (3, 2)], 3, 1, 5⟩ : Cache Nat Nat).evict_point + 1
        else (⟨[⟨1, 10, 1, 100⟩, ⟨2, 20, 1, 100⟩, ⟨3, 30, 1, 100⟩],
          [(1, 0), (2, 1), (3, 2)], 3, 1, 5⟩ : Cache Nat Nat).cliffTruncate.arena.length) :=
  ⟨by decide, ((C5_gatsby_insert_spec _ 7 70 100 0).1 (by decide)).2.2.1⟩

/-- Witness for C6_amended: a clean seven-operation trace keeps the index and
arena consistent. -/
theorem C6_amended_witness :
    (1 ≤ 3 ∧
     cleanTrace (DualCache.new 3 : DualCache Nat Nat)
       [Op.insert 1 10 100 0, Op.signal 1 50, Op.update 1 20, Op.delete 1,
        Op.maintain, Op.commit, Op.read 1] = true) ∧
    consistent (execTrace (DualCache.new 3 : DualCache Nat Nat)
      [Op.insert 1 10 100 0, Op.signal 1 50, Op.update 1 20, Op.delete 1,
       Op.maintain, Op.commit, Op.read 1]).main :=
  ⟨⟨by decide, by decide⟩, C6_amended 3 _ (by decide) (by decide)⟩

/-- Witness for C7_amended: deleting the key at position 3 of a four-node
cache with `evict_point = 1` (two-swap path) removes it and shrinks the
arena. -/
theorem C7_amended_witness :
    (idxLookup (⟨[⟨1, 10, 1, 100⟩, ⟨2, 20, 1, 100⟩, ⟨3, 30, 1, 100⟩, ⟨4, 40, 1, 100⟩],
        [(1, 0), (2, 1), (3, 2), (4, 3)], 4, 1, 4⟩ : Cache Nat Nat).index 4 = some 3 ∧
     (⟨[⟨1, 10, 1, 100⟩, ⟨2, 20, 1, 100⟩, ⟨3, 30, 1, 100⟩, ⟨4, 40, 1, 100⟩],
        [(1, 0), (2, 1), (3, 2), (4, 3)], 4, 1, 4⟩ : Cache Nat Nat).arena[3]? =
       some ⟨4, 40, 1, 100⟩ ∧
     (⟨4, 40, 1, 100⟩ : Node Nat Nat).key = 4 ∧
     (⟨[⟨1, 10, 1, 100⟩, ⟨2, 20, 1, 100⟩, ⟨3, 30, 1, 100⟩, ⟨4, 40, 1, 100⟩],
        [(1, 0), (2, 1), (3, 2), (4, 3)], 4, 1, 4⟩ : Cache Nat Nat).evict_point + 1 <
       (⟨[⟨1, 10, 1, 100⟩, ⟨2, 20, 1, 100⟩, ⟨3, 30, 1, 100⟩, ⟨4, 40, 1, 100⟩],
        [(1, 0), (2, 1), (3, 2), (4, 3)], 4, 1, 4⟩ : Cache Nat Nat).arena.length) ∧
    idxLookup ((⟨[⟨1, 10, 1, 100⟩, ⟨2, 20, 1, 100⟩, ⟨3, 30, 1, 100⟩, ⟨4, 40, 1, 100⟩],
        [(1, 0), (2, 1), (3, 2), (4, 3)], 4, 1, 4⟩ :
        Cache Nat Nat).double_swap_delete 4).index 4 = none :=
  ⟨⟨by decide, by decide, by decide, by decide⟩,
   ((C7_amended _ 4 3 ⟨4, 40, 1, 100⟩ (by decide) (by decide) (by decide)).1
     (by decide)).2.1⟩

/-- Witness for C8_amended: update then commit then read returns the new
value. -/
theorem C8_amended_witness :
    (idxLookup (⟨⟨[⟨1, 10, 1, 100⟩], [(1, 0)], 1, 2, 2⟩,
        ⟨[⟨1, 10, 1, 100⟩], [(1, 0)], 1, 2, 2⟩, []⟩ : DualCache Nat Nat).main.index 1 =
       some 0 ∧
     (⟨⟨[⟨1, 10, 1, 100⟩], [(1, 0)], 1, 2, 2⟩,
        ⟨[⟨1, 10, 1, 100⟩], [(1, 0)], 1, 2, 2⟩, []⟩ : DualCache Nat Nat).main.arena[0]? =
       some ⟨1, 10, 1, 100⟩ ∧
     (⟨1, 10, 1, 100⟩ : Node Nat Nat).key = 1) ∧
    ((((⟨⟨[⟨1, 10, 1, 100⟩], [(1, 0)], 1, 2, 2⟩,
        ⟨[⟨1, 10, 1, 100⟩], [(1, 0)], 1, 2, 2⟩, []⟩ :
        DualCache Nat Nat).update 1 99).commit).get 1).1 = some 99 :=
  ⟨⟨by decide, by decide, by decide⟩,
   ((C8_amended _ 1 99).1 0 ⟨1, 10, 1, 100⟩ (by decide) (by decide) (by decide)).2⟩

/-- Witness for C9_time_decay_spec: counter 8 becomes 4 after one decay and 2
after two. -/
theorem C9_time_decay_witness :
    ((⟨[⟨1, 10, 8, 100⟩], [(1, 0)], 8, 2, 2⟩ : Cache Nat Nat).arena[0]? =
      some ⟨1, 10, 8, 100⟩) ∧
    ((⟨[⟨1, 10, 8, 100⟩], [(1, 0)], 8, 2, 2⟩ :
       Cache Nat Nat).time_decay).arena[0]? = some ⟨1, 10, 4, 100⟩ ∧
    (((⟨[⟨1, 10, 8, 100⟩], [(1, 0)], 8, 2, 2⟩ :
       Cache Nat Nat).time_decay).time_decay).arena[0]? = some ⟨1, 10, 2, 100⟩ :=
  ⟨by decide,
   (C9_time_decay_spec _).2.1 0 ⟨1, 10, 8, 100⟩ (by decide),
   (C9_time_decay_spec _).2.2.2.2.2.2 0 ⟨1, 10, 8, 100⟩ (by decide)⟩

/-- Witness for C10_get_spec: a validated entry whose time stamp lies in the
past is still returned as a hit. -/
theorem C10_get_witness :
    (idxLookup (⟨⟨[], [], 0, 2, 2⟩, ⟨[⟨1, 10, 1, 5⟩], [(1, 0)], 1, 2, 2⟩, []⟩ :
        DualCache Nat Nat).mirror.index 1 = some 0 ∧
     (⟨⟨[], [], 0, 2, 2⟩, ⟨[⟨1, 10, 1, 5⟩], [(1, 0)], 1, 2, 2⟩, []⟩ :
        DualCache Nat Nat).mirror.arena[0]? = some ⟨1, 10, 1, 5⟩ ∧
     (⟨1, 10, 1, 5⟩ : Node Nat Nat).key = 1) ∧
    ((⟨⟨[], [], 0, 2, 2⟩, ⟨[⟨1, 10, 1, 5⟩], [(1, 0)], 1, 2, 2⟩, []⟩ :
        DualCache Nat Nat).get 1).1 = some 10 :=
  ⟨⟨by decide, by decide, by decide⟩,
   (C10_get_spec _ 1).2 0 ⟨1, 10, 1, 5⟩ (by decide) (by decide) (by decide)⟩

/-- C7 (counterexample): when the victim lies inside the safe zone the first
swap pulls the node at `evict_point + 1` into the victim's slot, so a
position strictly below `evict_point` changes. Reachable run: `new(4)`, five
inserts (the arena overflows to 5 nodes because `evict_point` starts at
`capacity`), maintenance (which lowers `evict_point` to 3), then delete of
the key at position 0: position 0 held key 1 before and key 5 after. -/
theorem C7_counterexample :
    (execTrace (DualCache.new 4 : DualCache Nat Nat)
      [Op.insert 1 10 100 0, Op.insert 2 20 100 0, Op.insert 3 30 100 0,
       Op.insert 4 40 100 0, Op.insert 5 50 100 0, Op.maintain]).main.evict_point = 3 ∧
    (execTrace (DualCache.new 4 : DualCache Nat Nat)
      [Op.insert 1 10 100 0, Op.insert 2 20 100 0, Op.insert 3 30 100 0,
       Op.insert 4 40 100 0, Op.insert 5 50 100 0, Op.maintain]).main.evict_point + 1 <
      (execTrace (DualCache.new 4 : DualCache Nat Nat)
        [Op.insert 1 10 100 0, Op.insert 2 20 100 0, Op.insert 3 30 100 0,
         Op.insert 4 40 100 0, Op.insert 5 50 100 0, Op.maintain]).main.arena.length ∧
    idxLookup (execTrace (DualCache.new 4 : DualCache Nat Nat)
      [Op.insert 1 10 100 0, Op.insert 2 20 100 0, Op.insert 3 30 100 0,
       Op.insert 4 40 100 0, Op.insert 5 50 100 0, Op.maintain]).main.index 1 = some 0 ∧
    ((execTrace (DualCache.new 4 : DualCache Nat Nat)
      [Op.insert 1 10 100 0, Op.insert 2 20 100 0, Op.insert 3 30 100 0,
       Op.insert 4 40 100 0, Op.insert 5 50 100 0,
       Op.maintain]).main.arena[0]?).map Node.key = some 1 ∧
    ((execTrace (DualCache.new 4 : DualCache Nat Nat)
      [Op.insert 1 10 100 0, Op.insert 2 20 100 0, Op.insert 3 30 100 0,
       Op.insert 4 40 100 0, Op.insert 5 50 100 0, Op.maintain,
       Op.delete 1]).main.arena[0]?).map Node.key = some 5 := by
  decide
